import Mathlib

/-!
Verification of the nix-disk core: a shallow embedding of the
configuration-text parsing / device-enumeration / reconciliation /
regeneration pipeline (src/utils/disk_parser.rs, src/utils/disk_writer.rs,
src/models/partition.rs, src/models/disk.rs), together with theorems that
settle the specification claims.

Modelling conventions:
* Rust `String` / `&str` / `PathBuf` values are modelled as `Str := List Char`
  (`PathBuf::display` on these paths is the identity, and all path operations
  the code performs are plain string operations).
* Filesystem and process side effects (symlink resolution, reading
  `/proc/partitions`, running `lsblk` / `blkid`) are modelled as explicit
  environments (`FsEnv`, `SysEnv`) passed to the functions that perform them.
* `anyhow::Result` together with the possibility of an out-of-range slice
  panic is modelled by `POut`: `ok`, `err` (the `.context(...)` messages are
  enumerated by `PErr`), and `panicked` for a Rust panic.
* Functions whose Rust originals loop with a monotonically shrinking string
  are written with an explicit fuel argument initialised to the string
  length (each loop iteration consumes at least one character, so this fuel
  is never exhausted); this keeps every definition structurally recursive
  and hence executable by `decide` / `rfl`.
-/

/-- Strings are modelled as lists of characters. -/
abbrev Str : Type := List Char

/-- Partition record, from src/models/partition.rs (`pub struct Partition`). -/
structure Partition where
  path : Str
  uuid_path : Str
  mount_points : List Str
  fs_type : Option Str
  size : Nat
  label : Option Str
deriving DecidableEq, Repr

/-- `Partition::add_mount_point`: push the mount point unless already present. -/
def Partition.add_mount_point (p : Partition) (mp : Str) : Partition :=
  if mp ∈ p.mount_points then p
  else { p with mount_points := p.mount_points ++ [mp] }

/-- Disk record, from src/models/disk.rs (`pub struct Disk`). -/
structure Disk where
  path : Str
  partitions : List Partition
  size : Nat
deriving DecidableEq, Repr

/-- `Disk::add_partition`: append a partition. -/
def Disk.add_partition (d : Disk) (p : Partition) : Disk :=
  { d with partitions := d.partitions ++ [p] }

/-- `CRITICAL_MOUNT_POINTS` from src/utils/disk_writer.rs. -/
def CRITICAL_MOUNT_POINTS : List Str :=
  ["/".data, "/boot".data, "/boot/efi".data, "/nix".data, "/nix/store".data]

/-- `is_critical_mount_point` from src/utils/disk_writer.rs. -/
def is_critical_mount_point (mount_point : Str) : Bool :=
  CRITICAL_MOUNT_POINTS.contains mount_point

/-- The declaration marker `fileSystems."` searched for by both
disk_writer.rs and disk_parser.rs (13 characters). -/
def markerStr : Str := "fileSystems.\"".data

/-- The block-closing delimiter `};` searched for by disk_writer.rs. -/
def closeStr : Str := "\x7d;".data

/-- Index of the first occurrence of `pat` in a string, i.e. Rust
`str::find` with a string pattern. -/
def findSub (pat : Str) : Str → Option Nat
  | [] => if pat.isEmpty then some 0 else none
  | c :: s =>
    if pat.isPrefixOf (c :: s) then some 0
    else (findSub pat s).map (· + 1)

/-- `extract_mount_point` from src/utils/disk_writer.rs: find the marker,
skip its 13 characters, and take the text up to the next quote. -/
def extract_mount_point (block : Str) : Option Str :=
  match findSub markerStr block with
  | none => none
  | some i =>
    let after := block.drop (i + 13)
    match findSub ['\"'] after with
    | none => none
    | some j => some (after.take j)

/-- First pass of `get_nix_disks_config` (src/utils/disk_writer.rs lines
32-55), generalised to return every located block: repeatedly find the
marker, then the first `};` after it, and collect the text span between
them (inclusive).  The fuel is initialised to the string length; each
iteration drops at least two characters. -/
def scanBlocksF : Nat → Str → List Str
  | 0, _ => []
  | fuel + 1, s =>
    match findSub markerStr s with
    | none => []
    | some i =>
      let t := s.drop i
      match findSub closeStr t with
      | none => []
      | some j => t.take (j + 2) :: scanBlocksF fuel (t.drop (j + 2))

/-- All declaration blocks located by the first pass of
`get_nix_disks_config`. -/
def scanBlocks (s : Str) : List Str := scanBlocksF s.length s

/-- A located block is preserved iff its extracted mount point is critical
(src/utils/disk_writer.rs lines 39-49). -/
def isCriticalBlock (b : Str) : Bool :=
  match extract_mount_point b with
  | some mp => is_critical_mount_point mp
  | none => false

/-- Removal pass of `get_nix_disks_config` (src/utils/disk_writer.rs lines
58-66): repeatedly find the marker and the first `};` after it and delete
that span, restarting the search from the beginning. -/
def removeBlocksF : Nat → Str → Str
  | 0, s => s
  | fuel + 1, s =>
    match findSub markerStr s with
    | none => s
    | some p =>
      match findSub closeStr (s.drop p) with
      | none => s
      | some j => removeBlocksF fuel (s.take p ++ (s.drop p).drop (j + 2))

/-- The removal pass, with fuel initialised to the string length. -/
def removeBlocks (s : Str) : Str := removeBlocksF s.length s

/-- Rust `char::is_whitespace` (the Unicode White_Space property). -/
def rustIsWhitespace (c : Char) : Bool :=
  ['\t', '\n', '\x0b', '\x0c', '\r', ' ', '\u0085', '\u00A0', '\u1680',
   '\u2000', '\u2001', '\u2002', '\u2003', '\u2004', '\u2005', '\u2006',
   '\u2007', '\u2008', '\u2009', '\u200A', '\u2028', '\u2029', '\u202F',
   '\u205F', '\u3000'].contains c

/-- Rust `str::trim_end`. -/
def rustTrimEnd (s : Str) : Str :=
  (s.reverse.dropWhile rustIsWhitespace).reverse

/-- Rust `str::trim`. -/
def rustTrim (s : Str) : Str :=
  (rustTrimEnd s).dropWhile rustIsWhitespace

/-- The `x-gvfs-show` mount option (the "show in file manager" option of
the specification). -/
def gvfsOpt : Str := "x-gvfs-show".data

/-- The final `format!("[ {} ]", ...)` of `get_filesystem_options`:
quote-wrap each option and join with single spaces. -/
def fmtOptions (l : List Str) : Str :=
  "[ ".data ++ List.intercalate " ".data (l.map (fun o => '\"' :: (o ++ ['\"']))) ++ " ]".data

/-- `get_filesystem_options` from src/utils/disk_writer.rs lines 136-161. -/
def get_filesystem_options (fs_type mount_point : Str) : Str :=
  let options : List Str :=
    if fs_type = "btrfs".data then
      ["defaults".data, "nofail".data, gvfsOpt, "compress=zstd".data]
    else if fs_type = "ntfs".data ∨ fs_type = "ntfs3".data then
      ["defaults".data, "nofail".data, gvfsOpt,
       "uid=1000".data, "gid=100".data, "umask=022".data]
    else
      ["defaults".data, "nofail".data, gvfsOpt]
  let options :=
    if mount_point = "/".data ∨ mount_point = "/boot".data then
      options.filter (fun o => o ≠ gvfsOpt)
    else options
  fmtOptions options

/-- One generated `fileSystems` block, exactly the sequence of `push_str`
calls of src/utils/disk_writer.rs lines 110-121. -/
def genBlock (uuidPath fsType mp : Str) : Str :=
  "\n  fileSystems.\"".data ++ mp ++ "\" = \x7b\n    device = \"".data ++ uuidPath ++
  "\";\n    fsType = \"".data ++ fsType ++ "\";\n    options = ".data ++
  get_filesystem_options fsType mp ++ ";\n  \x7d;".data

/-- The (uuid_path, fs_type, mount_point) triples for which
`get_nix_disks_config` emits new blocks, in emission order
(src/utils/disk_writer.rs lines 84-125): disks in order, partitions in
order, mount points in order; partitions without mount points are skipped,
critical mount points are skipped, and a missing fs type defaults to
`auto`. -/
def mountEntries (disks : List Disk) : List (Str × Str × Str) :=
  disks.flatMap fun d =>
    d.partitions.flatMap fun p =>
      if p.mount_points.isEmpty then []
      else
        let ft := p.fs_type.getD "auto".data
        (p.mount_points.filter (fun mp => !is_critical_mount_point mp)).map
          (fun mp => (p.uuid_path, ft, mp))

/-- Rust `if config.ends_with('}') { config.pop(); }`. -/
def popBrace (s : Str) : Str :=
  if s.getLast? = some '\x7d' then s.dropLast else s

/-- `get_nix_disks_config` from src/utils/disk_writer.rs lines 24-133.
The Rust function returns `Result<String>` but has no error path, so it is
modelled as total.  Steps: collect the critical blocks (first pass), delete
all located blocks, trim trailing whitespace then pop one trailing `}`,
re-append each preserved block preceded by `"\n  "`, append one generated
block per non-critical mount entry, and append the final `"\n\n}"`. -/
def get_nix_disks_config (nix_config : Str) (disks : List Disk) : Str :=
  let preserved := (scanBlocks nix_config).filter isCriticalBlock
  let c := removeBlocks nix_config
  let c := popBrace (rustTrimEnd c)
  let c := c ++ preserved.flatMap (fun b => "\n  ".data ++ b)
  let c := c ++ (mountEntries disks).flatMap (fun e => genBlock e.1 e.2.1 e.2.2)
  c ++ "\n\n\x7d".data

/-- Rust `str::contains` with a string pattern. -/
def containsSub (pat s : Str) : Bool := (findSub pat s).isSome

/-- Modelled from the specification's per-filesystem option table (§6):
btrfs gets defaults, nofail, show-in-manager, compress=zstd; ntfs/ntfs3 get
defaults, nofail, show-in-manager, uid=1000, gid=100, umask=022; every
other type gets defaults, nofail, show-in-manager (where show-in-manager
is the `x-gvfs-show` option). -/
def specOptionTable (fs_type : Str) : List Str :=
  if fs_type = "btrfs".data then
    ["defaults".data, "nofail".data, gvfsOpt, "compress=zstd".data]
  else if fs_type = "ntfs".data ∨ fs_type = "ntfs3".data then
    ["defaults".data, "nofail".data, gvfsOpt,
     "uid=1000".data, "gid=100".data, "umask=022".data]
  else
    ["defaults".data, "nofail".data, gvfsOpt]

/-- Modelled from the specification (§6): the table entry for the
filesystem type, with the show-in-manager option dropped when the mount
point is `/` or `/boot`. -/
def specOptions (fs_type mount_point : Str) : List Str :=
  if mount_point = "/".data ∨ mount_point = "/boot".data then
    (specOptionTable fs_type).filter (fun o => o ≠ gvfsOpt)
  else specOptionTable fs_type

/-- Error contexts attached by `.context(...)` in src/utils/disk_parser.rs. -/
inductive PErr where
  /-- "Failed to extract mount point" -/
  | mountPoint
  /-- "Failed to extract device path" -/
  | devicePath
  /-- "Failed to read /proc/partitions" -/
  | procPartitions
  /-- "Failed to run lsblk" -/
  | lsblkRun
  /-- "Failed to run blkid" -/
  | blkidRun
deriving DecidableEq, Repr

/-- Outcome of a fallible Rust call: `Ok`, `Err` (with its context), or a
panic (e.g. an out-of-range string slice). -/
inductive POut (α : Type) where
  | ok (val : α)
  | err (e : PErr)
  | panicked
deriving DecidableEq, Repr

/-- Filesystem state consulted by `parse_nix_filesystems` when resolving a
device reference: `Path::exists`, `fs::read_link`, `Path::canonicalize`. -/
structure FsEnv where
  pathExists : Str → Bool
  readLink : Str → Option Str
  canonicalize : Str → Option Str

/-- The environment in which no device-reference path exists, so every
reference falls back to itself as the canonical path. -/
def emptyFs : FsEnv := ⟨fun _ => false, fun _ => none, fun _ => none⟩

/-- Rust `Path::parent` (as much of it as the code can reach). -/
def parentDir (p : Str) : Option Str :=
  if p.isEmpty ∨ p = ['/'] then none
  else
    let r := (p.reverse.dropWhile (fun c => c ≠ '/')).drop 1
    if r.isEmpty then (if ('/' ∈ p) then some ['/'] else some [])
    else some r.reverse

/-- Rust `Path::join`. -/
def pathJoin (a b : Str) : Str :=
  if b.head? = some '/' then b
  else if a.getLast? = some '/' then a ++ b else a ++ '/' :: b

/-- Symlink resolution of src/utils/disk_parser.rs lines 36-45: if the
device reference exists, follow one `read_link`, join the target onto the
reference's parent directory (falling back to `/dev/disk/by-uuid`), and
canonicalize (falling back to the raw link target); a non-existent
reference, or a failing `read_link`, falls back to the reference itself. -/
def resolveDevice (env : FsEnv) (p : Str) : Str :=
  if env.pathExists p then
    match env.readLink p with
    | some link =>
      let par := (parentDir p).getD "/dev/disk/by-uuid".data
      match env.canonicalize (pathJoin par link) with
      | some c => c
      | none => link
    | none => p
  else p

/-- Lazy tail of the regex `fileSystems\."(.+?)"`: the characters after
the first capture character up to the first `"`, all of them (and the
first capture character) being non-newline.  Returns the captured tail and
the text after the closing quote. -/
def fqAfter : Str → Option (Str × Str)
  | [] => none
  | d :: r =>
    if d = '\"' then some ([], r)
    else if d = '\n' then none
    else (fqAfter r).map (fun pr => (d :: pr.1, pr.2))

/-- The capture of the regex `fileSystems\."(.+?)"` once the literal part
has matched: a nonempty run of non-newline characters, lazily ended at the
first `"`. -/
def findQuote : Str → Option (Str × Str)
  | [] => none
  | c :: r => if c = '\n' then none else (fqAfter r).map (fun pr => (c :: pr.1, pr.2))

/-- An anchored match of the regex `fileSystems\."(.+?)"` at the start of
`s`: the 13-character marker literal followed by a valid lazy capture.
Returns the capture and the text after the match. -/
def markerMatch (s : Str) : Option (Str × Str) :=
  if markerStr.isPrefixOf s then findQuote (s.drop 13) else none

/-- `nix_config[start..].find('}')` followed by taking the slice through
that brace: the prefix of `s` up to and including the first `}`, or `none`
when there is no `}` (in which case the Rust slice `[start..len+start+1]`
is out of range and panics). -/
def takeThroughBrace : Str → Option Str
  | [] => none
  | c :: r => if c = '\x7d' then some [c] else (takeThroughBrace r).map (c :: ·)

/-- `fs_regex.captures(nix_group)`: the capture of the leftmost match of
`fileSystems\."(.+?)"` anywhere in the text. -/
def firstCapture : Str → Option Str
  | [] => none
  | c :: s =>
    match markerMatch (c :: s) with
    | some pr => some pr.1
    | none => firstCapture s

/-- The literal part of the regex `device = "(.+?)";` (10 characters). -/
def devLit : Str := "device = \"".data

/-- Lazy tail of `device = "(.+?)";`: characters (non-newline, quotes
allowed) up to the first `";` pair. -/
def dvAfter : Str → Option (Str × Str)
  | [] => none
  | d :: r =>
    if d = '\"' ∧ r.head? = some ';' then some ([], r.tail)
    else if d = '\n' then none
    else (dvAfter r).map (fun pr => (d :: pr.1, pr.2))

/-- An anchored match of `device = "(.+?)";` at the start of `s`,
returning the capture. -/
def dvMatch (s : Str) : Option Str :=
  if devLit.isPrefixOf s then
    match s.drop 10 with
    | [] => none
    | c0 :: r => if c0 = '\n' then none else (dvAfter r).map (fun pr => c0 :: pr.1)
  else none

/-- `device_regex.captures(nix_group)`: the capture of the leftmost match
of `device = "(.+?)";` anywhere in the text. -/
def deviceCapture : Str → Option Str
  | [] => none
  | c :: s =>
    match dvMatch (c :: s) with
    | some cap => some cap
    | none => deviceCapture s

/-- The `for fs_match in fs_regex.find_iter(nix_config)` loop of
`parse_nix_filesystems` (src/utils/disk_parser.rs lines 16-61), producing
the `(canonical path, device reference, mount point)` triple of each
declaration in match order.  At each position: if no match starts here,
advance one character (`find_iter` reports leftmost matches); on a match,
slice the group through the first `}` at or after the match start
(panicking when there is none, because the fallback index
`nix_config.len() + start + 1` is out of range), re-run the two capture
regexes on the group, and continue after the match end. -/
def parseEntriesF (env : FsEnv) : Nat → Str → POut (List (Str × Str × Str))
  | 0, _ => .ok []
  | _ + 1, [] => .ok []
  | fuel + 1, c :: s =>
    match markerMatch (c :: s) with
    | none => parseEntriesF env fuel s
    | some (_, after) =>
      match takeThroughBrace (c :: s) with
      | none => .panicked
      | some g =>
        match firstCapture g with
        | none => .err .mountPoint
        | some mount =>
          match deviceCapture g with
          | none => .err .devicePath
          | some dev =>
            match parseEntriesF env fuel after with
            | .ok rest => .ok ((resolveDevice env dev, dev, mount) :: rest)
            | e => e

/-- The declaration triples of a configuration text, in match order. -/
def parseEntries (env : FsEnv) (s : Str) : POut (List (Str × Str × Str)) :=
  parseEntriesF env s.length s

/-- The `HashMap<PathBuf, Partition>` of `parse_nix_filesystems`, modelled
as an association list keyed by canonical path (keys are unique). -/
abbrev PMap := List (Str × Partition)

/-- One `partitions.entry(..).and_modify(..).or_insert_with(..)` step of
src/utils/disk_parser.rs lines 47-60, applied to the triple
`(canonical path, device reference, mount point)`. -/
def applyEntry (m : PMap) (e : Str × Str × Str) : PMap :=
  match List.lookup e.1 m with
  | some _ => m.map (fun pr => if pr.1 = e.1 then (pr.1, pr.2.add_mount_point e.2.2) else pr)
  | none => m ++ [(e.1, ⟨e.1, e.2.1, [e.2.2], none, 0, none⟩)]

/-- The partition map accumulated over the declaration triples. -/
def buildMap (es : List (Str × Str × Str)) : PMap := es.foldl applyEntry []

/-- `parse_nix_filesystems` from src/utils/disk_parser.rs lines 10-64. -/
def parse_nix_filesystems (env : FsEnv) (nix_config : Str) : POut PMap :=
  match parseEntries env nix_config with
  | .ok es => .ok (buildMap es)
  | .err e => .err e
  | .panicked => .panicked

/-- External system state consulted by `get_disks`: the content of
`/proc/partitions` (if readable), and the stdout of `lsblk -b --output
SIZE -n -d <path>` and of `blkid <path>` (if the command could run). -/
structure SysEnv where
  procPartitions : Option Str
  lsblkSize : Str → Option Str
  blkid : Str → Option Str

/-- One anchored attempt of the greedy regex `LIT([^"]+)"`: the literal,
then a maximal nonempty run of non-quote characters, then a quote. -/
def kcTry (lit s : Str) : Option Str :=
  if lit.isPrefixOf s then
    let t := s.drop lit.length
    let run := t.takeWhile (fun ch => ch != '\"')
    if run.isEmpty then none
    else if (t.drop run.length).head? = some '\"' then some run else none
  else none

/-- Leftmost match of the greedy regex `LIT([^"]+)"` (used with
`TYPE="`, `LABEL="`, `UUID="` on blkid output). -/
def keyCapture (lit : Str) : Str → Option Str
  | [] => none
  | c :: s =>
    match kcTry lit (c :: s) with
    | some r => some r
    | none => keyCapture lit s

/-- Rust `str::lines`: split at `\n`, strip one `\r` before each split
point, and drop a final empty segment. -/
def rustLinesF : Nat → Str → List Str
  | 0, _ => []
  | fuel + 1, s =>
    if s.isEmpty then []
    else
      match findSub ['\n'] s with
      | none => [s]
      | some i =>
        (if (s.take i).getLast? = some '\r' then (s.take i).dropLast else s.take i) ::
          rustLinesF fuel (s.drop (i + 1))

/-- Rust `str::lines` with fuel initialised to the string length. -/
def rustLines (s : Str) : List Str := rustLinesF s.length s

/-- Rust `str::split_whitespace`: split on whitespace runs, no empty
pieces. -/
def splitWs (s : Str) : List Str :=
  (s.splitOnP rustIsWhitespace).filter (fun w => !w.isEmpty)

/-- Rust `str::parse::<u64>()`: an optional `+` sign, then one or more
ASCII digits, rejected on overflow past `2^64 - 1`. -/
def parseU64 (s : Str) : Option Nat :=
  let digits := match s with
    | '+' :: r => r
    | r => r
  if digits.isEmpty ∨ ¬ digits.all (fun c => c.isDigit) then none
  else
    let v := digits.foldl (fun a c => a * 10 + (c.toNat - 48)) 0
    if v < 2 ^ 64 then some v else none

/-- `parse_partition` from src/utils/disk_parser.rs lines 138-191: run
blkid, extract TYPE/LABEL; if the path is already in the configuration
map, enrich that record (in the map too) and return it; otherwise build a
fresh record from the UUID, or return `none` when blkid reported no UUID
("No UUID found, skip this partition"). -/
def parse_partition (env : SysEnv) (partition_path : Str) (size : Nat)
    (partitions_map : PMap) : POut (Option Partition × PMap) :=
  match env.blkid partition_path with
  | none => .err .blkidRun
  | some out =>
    let fs_type := keyCapture "TYPE=\"".data out
    let label := keyCapture "LABEL=\"".data out
    match List.lookup partition_path partitions_map with
    | some p =>
      let p := { p with fs_type := fs_type, label := label, size := size }
      .ok (some p, partitions_map.map (fun pr => if pr.1 = partition_path then (pr.1, p) else pr))
    | none =>
      match keyCapture "UUID=\"".data out with
      | some uuid =>
        .ok (some ⟨partition_path, "/dev/disk/by-uuid/".data ++ uuid, [], fs_type, size, label⟩,
          partitions_map)
      | none => .ok (none, partitions_map)

/-- The disk-membership test of src/utils/disk_parser.rs line 115: the
entry's path textually starts with the disk's path and differs from it. -/
def isPartTest (dpath diskPath : Str) : Bool :=
  diskPath.isPrefixOf dpath && dpath != diskPath

/-- The `for disk in disks.iter_mut()` classification loop of `get_disks`
(src/utils/disk_parser.rs lines 107-124): find the first already-seen disk
whose path is a proper textual ancestor of the entry, parse the entry as a
partition and append it to that disk (`None` partitions are dropped);
`none` when no disk matches. -/
def attachFirst (env : SysEnv) (dpath : Str) (size : Nat) :
    List Disk → PMap → Option (POut (List Disk × PMap))
  | [], _ => none
  | d :: ds, pmap =>
    if isPartTest dpath d.path then
      some (match parse_partition env dpath size pmap with
        | .ok (opt, pmap') =>
          .ok ((match opt with
                | some part => d.add_partition part
                | none => d) :: ds, pmap')
        | .err e => .err e
        | .panicked => .panicked)
    else
      match attachFirst env dpath size ds pmap with
      | none => none
      | some (.ok (ds2, pmap2)) => some (.ok (d :: ds2, pmap2))
      | some (.err e) => some (.err e)
      | some .panicked => some .panicked

/-- The per-line loop of `get_disks` (src/utils/disk_parser.rs lines
80-132): skip short lines, take the fourth whitespace-separated field as
the device name, skip `zram`/`sr` devices, query the size with lsblk
(`0` on parse failure), then either attach the entry to the first matching
disk or append a new disk with no partitions. -/
def getDisksGo (env : SysEnv) : List Str → List Disk → PMap → POut (List Disk)
  | [], disks, _ => .ok disks
  | line :: rest, disks, pmap =>
    let parts := splitWs line
    if parts.length < 4 then getDisksGo env rest disks pmap
    else
      let name := parts.getD 3 []
      if "zram".data.isPrefixOf name ∨ "sr".data.isPrefixOf name then
        getDisksGo env rest disks pmap
      else
        let dpath := "/dev/".data ++ name
        match env.lsblkSize dpath with
        | none => .err .lsblkRun
        | some out =>
          let dsize := (parseU64 (rustTrim out)).getD 0
          match attachFirst env dpath dsize disks pmap with
          | some (.ok (disks2, pmap2)) => getDisksGo env rest disks2 pmap2
          | some (.err e) => .err e
          | some .panicked => .panicked
          | none => getDisksGo env rest (disks ++ [⟨dpath, [], dsize⟩]) pmap

/-- `get_disks` from src/utils/disk_parser.rs lines 67-135. -/
def get_disks (env : SysEnv) (nix_config : Option Str) (fsEnv : FsEnv) :
    POut (List Disk) :=
  match (match nix_config with
         | some c => parse_nix_filesystems fsEnv c
         | none => .ok []) with
  | .err e => .err e
  | .panicked => .panicked
  | .ok pmap =>
    match env.procPartitions with
    | none => .err .procPartitions
    | some txt => getDisksGo env ((rustLines txt).drop 2) [] pmap

/-- `find_missing_partitions` from src/utils/disk_parser.rs lines
194-210: collect every live partition's `uuid_path` and keep the
configured partitions whose `uuid_path` is not among them. -/
def find_missing_partitions (configured_partitions : List Partition)
    (existing_disks : List Disk) : List Partition :=
  let existing_uuids : List Str :=
    existing_disks.flatMap (fun d => d.partitions.map (fun p => p.uuid_path))
  configured_partitions.filter (fun p => !(existing_uuids.contains p.uuid_path))

/-- The `find_iter` traversal of `parse_nix_filesystems`, keeping only the
group slices (the spans through the first `}` from each match start):
`none` when some match has no `}` after it (the panic case). -/
def groupsOfF : Nat → Str → Option (List Str)
  | 0, _ => some []
  | _ + 1, [] => some []
  | fuel + 1, c :: s =>
    match markerMatch (c :: s) with
    | none => groupsOfF fuel s
    | some (_, after) =>
      match takeThroughBrace (c :: s) with
      | none => none
      | some g => (groupsOfF fuel after).map (g :: ·)

/-- The group slices of all matches of a configuration text. -/
def groupsOf (s : Str) : Option (List Str) := groupsOfF s.length s

/-- Configured partition A with identity u1, for the drift example. -/
def drvA : Partition := ⟨"/dev/sda1".data, "u1".data, [], none, 0, none⟩

/-- Configured partition B with identity u2, for the drift example. -/
def drvB : Partition := ⟨"/dev/sda2".data, "u2".data, [], none, 0, none⟩

/-- A live disk containing only a partition with identity u1, for the
drift example. -/
def drvLive : Disk :=
  ⟨"/dev/sda".data, [⟨"/dev/sda1".data, "u1".data, [], none, 0, none⟩], 0⟩

/-- System state for the identity-less partition example: disk `sda` with
one partition `sda1` whose blkid output reports no UUID at all. -/
def c6Env : SysEnv :=
  ⟨some "major minor  #blocks  name\n\n   8        0     500000 sda\n   8        1     100000 sda1".data,
   fun p => if p = "/dev/sda".data then some "500".data
            else if p = "/dev/sda1".data then some "100".data else none,
   fun p => if p = "/dev/sda1".data then some "".data else none⟩

/-- System state for the `sda`, `sda1`, `sda2` classification example. -/
def c8Env : SysEnv :=
  ⟨some "h1\nh2\n 8 0 500000 sda\n 8 1 1000 sda1\n 8 2 2000 sda2".data,
   fun p => if p = "/dev/sda".data then some "500".data
            else if p = "/dev/sda1".data then some "100".data else some "200".data,
   fun p => if p = "/dev/sda1".data then some "UUID=\"u1\" TYPE=\"ext4\"".data
            else if p = "/dev/sda2".data then some "UUID=\"u2\"".data else some "".data⟩

/-- The partition record enumerated for `sda1` in the example. -/
def c8p1 : Partition :=
  ⟨"/dev/sda1".data, "/dev/disk/by-uuid/u1".data, [], some "ext4".data, 100, none⟩

/-- The partition record enumerated for `sda2` in the example. -/
def c8p2 : Partition :=
  ⟨"/dev/sda2".data, "/dev/disk/by-uuid/u2".data, [], none, 200, none⟩

/-- System state for the classification counterexample: listing order
`ab`, `a`, `ab1`, so that two already-seen disks (`/dev/ab` and `/dev/a`)
both pass the prefix test for the entry `/dev/ab1`. -/
def c8cexEnv : SysEnv :=
  ⟨some "h1\nh2\n 8 0 10 ab\n 8 1 10 a\n 8 2 10 ab1".data,
   fun _ => some "10".data,
   fun p => if p = "/dev/ab1".data then some "UUID=\"u\"".data else some "".data⟩

def accMounts (l : List Str) : List Str :=
  l.foldl (fun acc mp => if mp ∈ acc then acc else acc ++ [mp]) []

def safeTwo (p0 p1 : Char) : Str → Bool
  | [] => true
  | [c] => c != p0
  | c :: c2 :: r => (c != p0 || c2 != p1) && safeTwo p0 p1 (c2 :: r)

def goodComp (s : Str) : Prop :=
  s ≠ [] ∧ ∀ c ∈ s, c ≠ '\"' ∧ c ≠ '\n' ∧ c ≠ '\x7d'

def segA : Str := " = \x7b\n    device = \"".data

def segB : Str := "\";\n    fsType = \"".data

def segC : Str := "\";\n    options = ".data

def segD : Str := ";\n  \x7d;".data

/-- Concrete marker-free configuration text for the C2 witness. -/
def c2T : Str := "\x7b\n\x7d".data

/-- Concrete one-partition disk for the C2 witness. -/
def c2Disk : Disk :=
  ⟨"/dev/sda".data,
   [⟨"/dev/sda1".data, "/dev/disk/by-uuid/u1".data, ["/data".data],
     some ("ext4".data), 0, none⟩], 0⟩

/-- Claim C9: for every fs-type string and mount-point string,
`get_filesystem_options` returns (the formatted rendering of) the fixed
per-filesystem option list of the specification's table, with the
show-in-manager option omitted exactly when the mount point is `/` or
`/boot`; in particular `get_filesystem_options "ext4" "/"` does not
contain `x-gvfs-show`, and `get_filesystem_options "btrfs" "/media/x"`
contains both `compress=zstd` and `x-gvfs-show`. -/
theorem claim9_filesystem_options :
    (∀ fs_type mount_point : Str,
        get_filesystem_options fs_type mount_point =
          fmtOptions (specOptions fs_type mount_point)) ∧
      containsSub gvfsOpt (get_filesystem_options "ext4".data "/".data) = false ∧
      containsSub "compress=zstd".data
          (get_filesystem_options "btrfs".data "/media/x".data) = true ∧
      containsSub gvfsOpt (get_filesystem_options "btrfs".data "/media/x".data) = true :=
  ⟨fun _ _ => rfl, by decide, by decide, by decide⟩

/-- Claim C3 (counter-evidence): idempotence of `get_nix_disks_config`
fails already on the minimal configuration text `"{\n}"` with an empty
disk list.  The first application yields `"{\n\n\n}"`; the second yields
`"{\n\n\n\n\n}"`: `trim_end` runs before the closing brace is popped, so
the newlines sitting before the final `}` are never removed and every run
appends two more.  This contradicts the code's own comment ("Remove
trailing newlines before the closing brace"). -/
theorem claim3_idempotence_failure :
    get_nix_disks_config (get_nix_disks_config "\x7b\n\x7d".data []) [] ≠
      get_nix_disks_config "\x7b\n\x7d".data [] := by decide

/-- Claim C1: every declaration block located by the first pass of
`get_nix_disks_config` whose extracted mount point is critical appears
byte-identical as a contiguous substring of the regenerated text,
regardless of the disk list. -/
theorem claim1_critical_blocks_preserved (T : Str) (D : List Disk) (b : Str)
    (hb : b ∈ (scanBlocks T).filter isCriticalBlock) :
    b <:+: get_nix_disks_config T D := by
  obtain ⟨l1, l2, h⟩ := List.append_of_mem hb
  refine ⟨popBrace (rustTrimEnd (removeBlocks T)) ++
      l1.flatMap (fun x => "\n  ".data ++ x) ++ "\n  ".data,
    l2.flatMap (fun x => "\n  ".data ++ x) ++
      (mountEntries D).flatMap (fun e => genBlock e.1 e.2.1 e.2.2) ++ "\n\n\x7d".data, ?_⟩
  simp only [get_nix_disks_config]
  rw [h]
  simp [List.append_assoc]

/-- Witness for C1 at a concrete input: a critical `/boot` block inside a
configuration text is preserved verbatim by regeneration. -/
theorem claim1_witness :
    ("fileSystems.\"/boot\" = \x7b device = \"x\"; \x7d;".data ∈
        (scanBlocks "pre fileSystems.\"/boot\" = \x7b device = \"x\"; \x7d; post \x7d".data).filter
          isCriticalBlock) ∧
      "fileSystems.\"/boot\" = \x7b device = \"x\"; \x7d;".data <:+:
        get_nix_disks_config
          "pre fileSystems.\"/boot\" = \x7b device = \"x\"; \x7d; post \x7d".data [] :=
  ⟨by decide, claim1_critical_blocks_preserved _ _ _ (by decide)⟩

/-- Boolean prefix test agrees with the prefix relation. -/
theorem isPrefixOfBool {l1 l2 : Str} : l1.isPrefixOf l2 = true ↔ l1 <+: l2 :=
  List.isPrefixOf_iff_prefix

/-- Analysis of `fqAfter`: a successful capture tail splits the input at
the first quote, and contains no quote and no newline. -/
theorem fqAfter_eq {t cap aft : Str} (h : fqAfter t = some (cap, aft)) :
    t = cap ++ '\"' :: aft ∧ ∀ c ∈ cap, c ≠ '\"' ∧ c ≠ '\n' := by
  induction t generalizing cap aft with
  | nil => simp [fqAfter] at h
  | cons d r ih =>
    by_cases hq : d = '\"'
    · subst hq
      rw [show fqAfter ('\"' :: r) = some ([], r) from rfl] at h
      injection h with h2
      injection h2 with h3 h4
      subst h3; subst h4
      simp
    · by_cases hn : d = '\n'
      · subst hn; simp [fqAfter, hq] at h
      · simp only [fqAfter, if_neg hq, if_neg hn, Option.map_eq_some'] at h
        obtain ⟨⟨c2, a2⟩, hfq, heq⟩ := h
        simp only [Prod.mk.injEq] at heq
        obtain ⟨h1, h2⟩ := heq
        obtain ⟨ht, hall⟩ := ih hfq
        subst h2
        subst ht
        subst h1
        refine ⟨by simp, ?_⟩
        intro c hc
        rcases List.mem_cons.1 hc with rfl | hc
        · exact ⟨hq, hn⟩
        · exact hall c hc

/-- Analysis of `findQuote`: a successful capture is nonempty, splits the
input at its closing quote, contains no newline, and contains no quote
after its first character. -/
theorem findQuote_eq {t cap aft : Str} (h : findQuote t = some (cap, aft)) :
    t = cap ++ '\"' :: aft ∧ cap ≠ [] ∧ (∀ c ∈ cap, c ≠ '\n') ∧
      ∀ c ∈ cap.tail, c ≠ '\"' := by
  match t with
  | [] => simp [findQuote] at h
  | c :: r =>
    by_cases hn : c = '\n'
    · simp [findQuote, hn] at h
    · simp only [findQuote, if_neg hn, Option.map_eq_some'] at h
      obtain ⟨⟨c2, a2⟩, hfq, heq⟩ := h
      simp only [Prod.mk.injEq] at heq
      obtain ⟨h1, h2⟩ := heq
      obtain ⟨ht, hall⟩ := fqAfter_eq hfq
      subst h2
      subst ht
      subst h1
      refine ⟨by simp, by simp, ?_, ?_⟩
      · intro x hx
        rcases List.mem_cons.1 hx with rfl | hx
        · exact hn
        · exact (hall x hx).2
      · intro x hx
        exact (hall x hx).1

/-- Construction for `fqAfter`: a quote-free, newline-free capture tail
followed by a quote is captured exactly. -/
theorem fqAfter_append (cap aft : Str) (h : ∀ c ∈ cap, c ≠ '\"' ∧ c ≠ '\n') :
    fqAfter (cap ++ '\"' :: aft) = some (cap, aft) := by
  induction cap with
  | nil => simp [fqAfter]
  | cons c tl ih =>
    have hc := h c (by simp)
    have ih2 := ih fun x hx => h x (by simp [hx])
    simp [fqAfter, hc.1, hc.2, ih2]

/-- Construction for `findQuote`. -/
theorem findQuote_append (cap aft : Str) (h0 : cap ≠ [])
    (h1 : ∀ c ∈ cap, c ≠ '\n') (h2 : ∀ c ∈ cap.tail, c ≠ '\"') :
    findQuote (cap ++ '\"' :: aft) = some (cap, aft) := by
  match cap with
  | [] => exact absurd rfl h0
  | c :: tl =>
    have hfq := fqAfter_append tl aft fun x hx => ⟨h2 x hx, h1 x (by simp [hx])⟩
    simp [findQuote, h1 c (by simp), hfq]

/-- The marker has 13 characters. -/
theorem markerStr_length : markerStr.length = 13 := rfl

/-- Analysis of `markerMatch`. -/
theorem markerMatch_eq {s cap aft : Str} (h : markerMatch s = some (cap, aft)) :
    s = markerStr ++ cap ++ '\"' :: aft ∧ cap ≠ [] ∧ (∀ c ∈ cap, c ≠ '\n') ∧
      ∀ c ∈ cap.tail, c ≠ '\"' := by
  by_cases hp : markerStr.isPrefixOf s
  · simp only [markerMatch, if_pos hp] at h
    have hpre : markerStr <+: s := isPrefixOfBool.1 hp
    obtain ⟨ht, hne, hnl, hq⟩ := findQuote_eq h
    have h13 : markerStr = s.take 13 := by
      have h2 := List.prefix_iff_eq_take.1 hpre
      rwa [markerStr_length] at h2
    refine ⟨?_, hne, hnl, hq⟩
    rw [List.append_assoc, ← ht, h13, List.take_append_drop]
  · simp [markerMatch, hp] at h

/-- Construction for `markerMatch`. -/
theorem markerMatch_append (cap aft : Str) (h0 : cap ≠ [])
    (h1 : ∀ c ∈ cap, c ≠ '\n') (h2 : ∀ c ∈ cap.tail, c ≠ '\"') :
    markerMatch (markerStr ++ cap ++ '\"' :: aft) = some (cap, aft) := by
  have hp : markerStr.isPrefixOf (markerStr ++ cap ++ '\"' :: aft) = true := by
    rw [isPrefixOfBool, List.append_assoc]
    exact List.prefix_append _ _
  simp only [markerMatch, if_pos hp]
  rw [List.append_assoc, ← markerStr_length, List.drop_left]
  exact findQuote_append cap aft h0 h1 h2

/-- `takeThroughBrace` passes over a brace-free prefix. -/
theorem takeThroughBrace_append {A : Str} (X : Str) (h : '\x7d' ∉ A) :
    takeThroughBrace (A ++ X) = (takeThroughBrace X).map (A ++ ·) := by
  induction A with
  | nil =>
    simp only [List.nil_append]
    cases takeThroughBrace X <;> simp
  | cons c tl ih =>
    have hc : c ≠ '\x7d' := fun hcc => h (by simp [hcc])
    have ih2 := ih fun hm => h (List.mem_cons_of_mem c hm)
    simp only [List.cons_append, takeThroughBrace, if_neg hc, List.append_eq, ih2]
    cases takeThroughBrace X <;> simp

/-- A string at which the regex matches has its leftmost match at position
zero, with the same capture. -/
theorem firstCapture_of_match {s cap after : Str}
    (h : markerMatch s = some (cap, after)) : firstCapture s = some cap := by
  match s with
  | [] =>
    rw [show markerMatch ([] : Str) = none from rfl] at h
    exact absurd h (by simp)
  | c :: t => simp only [firstCapture, h]

/-- Counterexample for claim C10: on the text `fileSystems."a}b"` the
located group is truncated at the `}` inside the mount key, the group has
no closing quote, the re-run mount-point regex fails, and
`parse_nix_filesystems` returns the "Failed to extract mount point" error
— the branch the claim calls unreachable is reached. -/
theorem claim10_cex :
    parse_nix_filesystems emptyFs "fileSystems.\"a\x7db\"".data = .err .mountPoint := by
  decide

/-- Claim C10 as amended: the mount-point extraction error is unreachable
only for blocks whose captured mount key contains no `}`: whenever the
regex matches and the captured key is brace-free, and the group slice
through the first `}` exists, re-running the regex on the group recovers
exactly that key, so mount-point extraction succeeds. -/
theorem claim10_mount_extraction (s cap after g : Str)
    (h1 : markerMatch s = some (cap, after)) (h2 : '\x7d' ∉ cap)
    (h3 : takeThroughBrace s = some g) :
    firstCapture g = some cap := by
  obtain ⟨hs, hne, hnl, hq⟩ := markerMatch_eq h1
  subst hs
  have hA : '\x7d' ∉ markerStr ++ cap ++ ['\"'] := by
    intro hm
    rcases List.mem_append.1 hm with hm | hm
    · rcases List.mem_append.1 hm with hm | hm
      · exact absurd hm (by decide)
      · exact h2 hm
    · simp at hm
  have hsplit : markerStr ++ cap ++ '\"' :: after = (markerStr ++ cap ++ ['\"']) ++ after := by
    simp
  rw [hsplit, takeThroughBrace_append after hA] at h3
  obtain ⟨g2, hg2, hgeq⟩ := Option.map_eq_some'.1 h3
  subst hgeq
  have hshape : (markerStr ++ cap ++ ['\"']) ++ g2 = markerStr ++ cap ++ '\"' :: g2 := by
    simp
  rw [hshape]
  exact firstCapture_of_match (markerMatch_append cap g2 hne hnl hq)

/-- Witness for C10 at a concrete block. -/
theorem claim10_witness :
    (markerMatch "fileSystems.\"/mp\" = \x7b device = \"u\"; \x7d;".data =
        some ("/mp".data, " = \x7b device = \"u\"; \x7d;".data) ∧
      '\x7d' ∉ "/mp".data ∧
      takeThroughBrace "fileSystems.\"/mp\" = \x7b device = \"u\"; \x7d;".data =
        some "fileSystems.\"/mp\" = \x7b device = \"u\"; \x7d".data) ∧
      firstCapture "fileSystems.\"/mp\" = \x7b device = \"u\"; \x7d".data = some "/mp".data :=
  ⟨⟨by decide, by decide, by decide⟩,
    claim10_mount_extraction "fileSystems.\"/mp\" = \x7b device = \"u\"; \x7d;".data
      "/mp".data " = \x7b device = \"u\"; \x7d;".data
      "fileSystems.\"/mp\" = \x7b device = \"u\"; \x7d".data
      (by decide) (by decide) (by decide)⟩

/-- If every match has a group slice and some group lacks a device
capture, the parse loop returns an error. -/
theorem groupsOf_err (env : FsEnv) : ∀ (fuel : Nat) (s : Str) (gs : List Str),
    groupsOfF fuel s = some gs → (∃ g ∈ gs, deviceCapture g = none) →
    ∃ e, parseEntriesF env fuel s = .err e := by
  intro fuel
  induction fuel with
  | zero =>
    intro s gs h1 h2
    injection h1 with h1
    subst h1
    simp at h2
  | succ n ih =>
    intro s gs h1 h2
    match s with
    | [] =>
      injection h1 with h1
      subst h1
      simp at h2
    | c :: t =>
      cases hmm : markerMatch (c :: t) with
      | none =>
        rw [show groupsOfF (n + 1) (c :: t) = groupsOfF n t by
          simp only [groupsOfF, hmm]] at h1
        obtain ⟨e, he⟩ := ih t gs h1 h2
        exact ⟨e, by simp only [parseEntriesF, hmm]; exact he⟩
      | some pr =>
        obtain ⟨cap, after⟩ := pr
        cases htb : takeThroughBrace (c :: t) with
        | none =>
          rw [show groupsOfF (n + 1) (c :: t) = none by
            simp only [groupsOfF, hmm, htb]] at h1
          exact absurd h1 (by simp)
        | some g =>
          rw [show groupsOfF (n + 1) (c :: t) = (groupsOfF n after).map (g :: ·) by
            simp only [groupsOfF, hmm, htb]] at h1
          obtain ⟨gs2, hgs2, hgeq⟩ := Option.map_eq_some'.1 h1
          subst hgeq
          cases hfc : firstCapture g with
          | none =>
            exact ⟨.mountPoint, by simp only [parseEntriesF, hmm, htb, hfc]⟩
          | some mount =>
            cases hdc : deviceCapture g with
            | none =>
              exact ⟨.devicePath, by simp only [parseEntriesF, hmm, htb, hfc, hdc]⟩
            | some dev =>
              obtain ⟨g0, hg0, hg0d⟩ := h2
              rcases List.mem_cons.1 hg0 with rfl | hg0
              · exact absurd hdc (by simp [hg0d])
              · obtain ⟨e, he⟩ := ih after gs2 hgs2 ⟨g0, hg0, hg0d⟩
                exact ⟨e, by simp only [parseEntriesF, hmm, htb, hfc, hdc, he]⟩

/-- Claim C4 as amended: when every located match is followed by a `}`
(so the group slices exist) and some group lacks the device sub-field,
`parse_nix_filesystems` fails the whole call with an error and returns no
partial result.  (When a match has no following `}` the Rust code panics
on an out-of-range slice instead of returning an error — see the
counterexample.) -/
theorem claim4_device_error (env : FsEnv) (s : Str) (gs : List Str)
    (h1 : groupsOf s = some gs) (h2 : ∃ g ∈ gs, deviceCapture g = none) :
    ∃ e, parse_nix_filesystems env s = .err e := by
  obtain ⟨e, he⟩ := groupsOf_err env s.length s gs h1 h2
  refine ⟨e, ?_⟩
  simp only [parse_nix_filesystems, parseEntries, he]

/-- Counterexample for claim C4: on `fileSystems."/a"` (a marker with no
`}` anywhere after it) the parse call panics — the slice end index
`nix_config.len() + start + 1` is out of range — rather than failing with
a `MalformedDeclaration` error as the claim states. -/
theorem claim4_cex :
    parse_nix_filesystems emptyFs "fileSystems.\"/a\"".data = .panicked := by
  decide

/-- Witness for C4 at a concrete input: one well-delimited block with no
device sub-field makes the whole call fail with an error. -/
theorem claim4_witness :
    (groupsOf "fileSystems.\"/a\" = \x7b \x7d".data =
        some ["fileSystems.\"/a\" = \x7b \x7d".data] ∧
      deviceCapture "fileSystems.\"/a\" = \x7b \x7d".data = none) ∧
      ∃ e, parse_nix_filesystems emptyFs "fileSystems.\"/a\" = \x7b \x7d".data = .err e :=
  ⟨⟨by decide, by decide⟩,
    claim4_device_error emptyFs "fileSystems.\"/a\" = \x7b \x7d".data
      ["fileSystems.\"/a\" = \x7b \x7d".data] (by decide)
      ⟨"fileSystems.\"/a\" = \x7b \x7d".data, by decide, by decide⟩⟩

/-- Helper: a Boolean `contains` that is `false` means non-membership. -/
theorem containsFalse {l : List Str} {x : Str} : l.contains x = false ↔ x ∉ l := by
  rw [← Bool.not_eq_true]
  exact not_congr List.elem_iff

/-- Claim C5: `find_missing_partitions` returns exactly those configured
partitions whose `uuid_path` is absent from the identity paths of all
partitions across all live disks, preserving configured input order (the
result is a sublist of the input); in particular, for configured
`{A(id=u1), B(id=u2)}` and live disks containing only a partition with
identity u1, it returns exactly `{B}`. -/
theorem claim5_missing_partitions :
    (∀ (configured : List Partition) (existing : List Disk) (p : Partition),
        p ∈ find_missing_partitions configured existing ↔
          p ∈ configured ∧ ∀ d ∈ existing, ∀ q ∈ d.partitions, q.uuid_path ≠ p.uuid_path) ∧
      (∀ (configured : List Partition) (existing : List Disk),
        List.Sublist (find_missing_partitions configured existing) configured) ∧
      find_missing_partitions [drvA, drvB] [drvLive] = [drvB] := by
  refine ⟨?_, fun c ex => List.filter_sublist c, by decide⟩
  intro configured existing p
  simp only [find_missing_partitions, List.mem_filter, Bool.not_eq_true']
  rw [containsFalse]
  constructor
  · rintro ⟨h1, h2⟩
    refine ⟨h1, ?_⟩
    intro d hd q hq heq
    exact h2 (List.mem_flatMap.2 ⟨d, hd, List.mem_map.2 ⟨q, hq, heq⟩⟩)
  · rintro ⟨h1, h2⟩
    refine ⟨h1, ?_⟩
    intro hm
    obtain ⟨d, hd, hq⟩ := List.mem_flatMap.1 hm
    obtain ⟨q, hq2, heq⟩ := List.mem_map.1 hq
    exact h2 d hd q hq2 heq

/-- The classification loop finds no home for an entry iff no already-seen
disk passes the prefix test. -/
theorem attachFirst_none (env : SysEnv) (dpath : Str) (size : Nat) (pmap : PMap)
    (ds : List Disk) :
    attachFirst env dpath size ds pmap = none ↔
      ∀ d ∈ ds, isPartTest dpath d.path = false := by
  induction ds with
  | nil => simp [attachFirst]
  | cons d ds ih =>
    by_cases ht : isPartTest dpath d.path
    · simp [attachFirst, ht]
    · have htf : isPartTest dpath d.path = false := Bool.eq_false_iff.2 ht
      simp only [attachFirst, if_neg ht]
      cases hh : attachFirst env dpath size ds pmap with
      | none =>
        constructor
        · intro _ d2 hd2
          rcases List.mem_cons.1 hd2 with rfl | hd2
          · exact htf
          · exact ih.1 hh d2 hd2
        · intro _
          trivial
      | some r =>
        have hne : ¬ ∀ d2 ∈ ds, isPartTest dpath d2.path = false := by
          intro hall
          rw [ih.2 hall] at hh
          exact Option.noConfusion hh
        constructor
        · intro hcon
          cases r with
          | ok v =>
            obtain ⟨ds2, pmap2⟩ := v
            exact Option.noConfusion hcon
          | err e => exact Option.noConfusion hcon
          | panicked => exact Option.noConfusion hcon
        · intro hall
          exact absurd (fun d2 hd2 => hall d2 (List.mem_cons_of_mem d hd2)) hne

/-- The classification loop attaches an entry to the first already-seen
disk that passes the prefix test. -/
theorem attachFirst_hit (env : SysEnv) (dpath : Str) (size : Nat) (pmap pmap2 : PMap)
    (pre : List Disk) (d : Disk) (ds : List Disk) (part : Partition)
    (hpre : ∀ d2 ∈ pre, isPartTest dpath d2.path = false)
    (ht : isPartTest dpath d.path = true)
    (hp : parse_partition env dpath size pmap = .ok (some part, pmap2)) :
    attachFirst env dpath size (pre ++ d :: ds) pmap =
      some (.ok (pre ++ d.add_partition part :: ds, pmap2)) := by
  induction pre with
  | nil => simp [attachFirst, ht, hp]
  | cons d2 pre ih =>
    have h2 : ¬ isPartTest dpath d2.path = true := by
      rw [hpre d2 (by simp)]; simp
    have ih2 := ih fun x hx => hpre x (List.mem_cons_of_mem d2 hx)
    simp only [List.cons_append, attachFirst, if_neg h2, List.append_eq, ih2]

/-- Counterexample for claim C6: with `sda1` carrying no UUID and no
configuration, enumeration yields the disk `sda` with an empty partition
list — the identity-less partition is omitted from the tree, not included
as the claim states (the code comments "No UUID found, skip this
partition"). -/
theorem claim6_cex :
    get_disks c6Env none emptyFs = .ok [⟨"/dev/sda".data, [], 500⟩] := by decide

/-- Claim C6 as amended: a live partition whose filesystem-metadata probe
yields no UUID and which is absent from the configuration-derived
partition index is omitted from the enumerated disk tree:
`parse_partition` returns `Ok(None)` for it, and the classification loop
then leaves the owning disk unchanged. -/
theorem claim6_uuidless_skipped :
    (∀ (env : SysEnv) (ppath : Str) (size : Nat) (pmap : PMap) (out : Str),
        env.blkid ppath = some out →
        keyCapture "UUID=\"".data out = none →
        List.lookup ppath pmap = none →
        parse_partition env ppath size pmap = .ok (none, pmap)) ∧
      ∀ (env : SysEnv) (dpath : Str) (size : Nat) (pmap : PMap) (d : Disk) (ds : List Disk),
        isPartTest dpath d.path = true →
        parse_partition env dpath size pmap = .ok (none, pmap) →
        attachFirst env dpath size (d :: ds) pmap = some (.ok (d :: ds, pmap)) := by
  constructor
  · intro env ppath size pmap out hb hu hl
    simp only [parse_partition, hb, hl, hu]
  · intro env dpath size pmap d ds ht hp
    simp only [attachFirst, if_pos ht, hp]

/-- Witness for C6 at the concrete environment. -/
theorem claim6_witness :
    (c6Env.blkid "/dev/sda1".data = some "".data ∧
      keyCapture "UUID=\"".data "".data = none ∧
      List.lookup "/dev/sda1".data ([] : PMap) = none) ∧
      parse_partition c6Env "/dev/sda1".data 100 [] = .ok (none, []) :=
  ⟨⟨by decide, by decide, by decide⟩,
    claim6_uuidless_skipped.1 c6Env "/dev/sda1".data 100 [] "".data
      (by decide) (by decide) (by decide)⟩

/-- Counterexample for claim C8: the entry `/dev/ab1` satisfies the
claimed membership condition for the already-seen disk `/dev/a` (its path
starts with `/dev/a` and differs from it), yet it is classified under
`/dev/ab` (the first match) and `/dev/a` owns no partitions — the claimed
"if and only if" fails in the only-if-to-if direction for `/dev/a`. -/
theorem claim8_cex :
    get_disks c8cexEnv none emptyFs =
      .ok [⟨"/dev/ab".data,
            [⟨"/dev/ab1".data, "/dev/disk/by-uuid/u".data, [], none, 10, none⟩], 10⟩,
          ⟨"/dev/a".data, [], 10⟩] ∧
      isPartTest "/dev/ab1".data "/dev/a".data = true :=
  ⟨by decide, by decide⟩

/-- Claim C8 as amended: a live entry is classified as a partition iff
some already-seen disk passes the prefix test (path of the entry starts
with the disk's path and differs from it), and it is attached to the
first such disk in seen order; in particular, for live entries `sda`,
`sda1`, `sda2`, enumeration yields one disk `sda` owning the two
partitions in listing order. -/
theorem claim8_classification :
    (∀ (env : SysEnv) (dpath : Str) (size : Nat) (pmap : PMap) (ds : List Disk),
        attachFirst env dpath size ds pmap = none ↔
          ∀ d ∈ ds, isPartTest dpath d.path = false) ∧
      (∀ (env : SysEnv) (dpath : Str) (size : Nat) (pmap pmap2 : PMap)
          (pre : List Disk) (d : Disk) (ds : List Disk) (part : Partition),
        (∀ d2 ∈ pre, isPartTest dpath d2.path = false) →
        isPartTest dpath d.path = true →
        parse_partition env dpath size pmap = .ok (some part, pmap2) →
        attachFirst env dpath size (pre ++ d :: ds) pmap =
          some (.ok (pre ++ d.add_partition part :: ds, pmap2))) ∧
      get_disks c8Env none emptyFs = .ok [⟨"/dev/sda".data, [c8p1, c8p2], 500⟩] :=
  ⟨attachFirst_none, attachFirst_hit, by decide⟩

/-- Witness for C8: the first-match attachment applied at a concrete
entry and disk list. -/
theorem claim8_witness :
    ((∀ d2 ∈ ([] : List Disk), isPartTest "/dev/sda1".data d2.path = false) ∧
      isPartTest "/dev/sda1".data "/dev/sda".data = true ∧
      parse_partition c8Env "/dev/sda1".data 100 [] = .ok (some c8p1, [])) ∧
      attachFirst c8Env "/dev/sda1".data 100
          ([] ++ (⟨"/dev/sda".data, [], 500⟩ : Disk) :: []) [] =
        some (.ok ([] ++ (Disk.add_partition ⟨"/dev/sda".data, [], 500⟩ c8p1) :: [], [])) :=
  ⟨⟨by simp, by decide, by decide⟩,
    claim8_classification.2.1 c8Env "/dev/sda1".data 100 [] []
      [] ⟨"/dev/sda".data, [], 500⟩ [] c8p1 (by simp) (by decide) (by decide)⟩

/-! Association-list lemmas for the `HashMap` model, used to characterise
the merging behaviour of `parse_nix_filesystems` (claim C7). -/

theorem lookup_cons_self {k : Str} {p : Partition} {m : PMap} :
    List.lookup k ((k, p) :: m) = some p := by
  simp [List.lookup_cons]

theorem lookup_cons_ne {k b : Str} {p : Partition} {m : PMap} (h : k ≠ b) :
    List.lookup k ((b, p) :: m) = List.lookup k m := by
  rw [List.lookup_cons, show (k == b) = false from beq_eq_false_iff_ne.2 h]

theorem lookup_mapIf (m : PMap) (a : Str) (f : Partition → Partition) (k : Str) :
    List.lookup k (m.map fun pr => if pr.1 = a then (pr.1, f pr.2) else pr) =
      (if k = a then (List.lookup k m).map f else List.lookup k m) := by
  induction m with
  | nil => simp
  | cons pr m ih =>
    obtain ⟨b, p⟩ := pr
    by_cases hb : b = a
    · subst hb
      by_cases hk : k = b
      · subst hk
        simp [lookup_cons_self]
      · simp [lookup_cons_ne hk, ih, if_neg hk]
    · by_cases hk : k = b
      · subst hk
        simp [if_neg hb, lookup_cons_self]
      · simp [if_neg hb, lookup_cons_ne hk, ih]

theorem lookup_appendOne (m : PMap) (a k : Str) (p : Partition) :
    List.lookup k (m ++ [(a, p)]) =
      (match List.lookup k m with
       | some q => some q
       | none => if k = a then some p else none) := by
  induction m with
  | nil =>
    by_cases hk : k = a
    · subst hk; simp [lookup_cons_self]
    · simp [lookup_cons_ne hk, hk]
  | cons pr m ih =>
    obtain ⟨b, q⟩ := pr
    by_cases hk : k = b
    · subst hk
      simp [lookup_cons_self]
    · simp only [List.cons_append, lookup_cons_ne hk, ih]

theorem lookup_applyEntry (m : PMap) (e : Str × Str × Str) (k : Str) :
    List.lookup k (applyEntry m e) =
      (if k = e.1 then
        match List.lookup k m with
        | some p => some (p.add_mount_point e.2.2)
        | none => some ⟨e.1, e.2.1, [e.2.2], none, 0, none⟩
       else List.lookup k m) := by
  cases he : List.lookup e.1 m with
  | some p0 =>
    have ha : applyEntry m e =
        m.map fun pr => if pr.1 = e.1 then (pr.1, pr.2.add_mount_point e.2.2) else pr := by
      unfold applyEntry; rw [he]
    rw [ha, lookup_mapIf m e.1 (fun p => p.add_mount_point e.2.2) k]
    by_cases hk : k = e.1
    · subst hk
      simp [he]
    · simp [hk]
  | none =>
    have ha : applyEntry m e = m ++ [(e.1, ⟨e.1, e.2.1, [e.2.2], none, 0, none⟩)] := by
      unfold applyEntry; rw [he]
    rw [ha, lookup_appendOne]
    by_cases hk : k = e.1
    · subst hk
      simp [he]
    · cases h2 : List.lookup k m <;> simp [hk, h2]

theorem buildMap_append_one (es : List (Str × Str × Str)) (e : Str × Str × Str) :
    buildMap (es ++ [e]) = applyEntry (buildMap es) e := by
  unfold buildMap
  rw [List.foldl_append]
  rfl

theorem accMounts_appendOne (l : List Str) (x : Str) :
    accMounts (l ++ [x]) =
      (if x ∈ accMounts l then accMounts l else accMounts l ++ [x]) := by
  unfold accMounts
  rw [List.foldl_append]
  rfl

theorem accMounts_single (x : Str) : accMounts [x] = [x] := by
  simp [accMounts]

theorem accAux_nodup (l acc : List Str) (h : acc.Nodup) :
    (l.foldl (fun acc mp => if mp ∈ acc then acc else acc ++ [mp]) acc).Nodup := by
  induction l generalizing acc with
  | nil => simpa
  | cons x l ih =>
    simp only [List.foldl_cons]
    by_cases hx : x ∈ acc
    · rw [if_pos hx]; exact ih acc h
    · rw [if_neg hx]
      refine ih _ ?_
      rw [← List.concat_eq_append]
      exact h.concat hx

theorem accMounts_nodup (l : List Str) : (accMounts l).Nodup :=
  accAux_nodup l [] List.nodup_nil

theorem keys_applyEntry_some (m : PMap) (e : Str × Str × Str) (p0 : Partition)
    (he : List.lookup e.1 m = some p0) :
    (applyEntry m e).map (·.1) = m.map (·.1) := by
  have ha : applyEntry m e =
      m.map fun pr => if pr.1 = e.1 then (pr.1, pr.2.add_mount_point e.2.2) else pr := by
    unfold applyEntry; rw [he]
  rw [ha, List.map_map]
  refine List.map_congr_left ?_
  intro pr _
  simp only [Function.comp]
  split <;> rfl

theorem keys_applyEntry_none (m : PMap) (e : Str × Str × Str)
    (he : List.lookup e.1 m = none) :
    (applyEntry m e).map (·.1) = m.map (·.1) ++ [e.1] := by
  have ha : applyEntry m e = m ++ [(e.1, ⟨e.1, e.2.1, [e.2.2], none, 0, none⟩)] := by
    unfold applyEntry; rw [he]
  rw [ha]
  simp

theorem lookup_none_not_mem_keys (m : PMap) (k : Str)
    (h : List.lookup k m = none) : k ∉ m.map (·.1) := by
  induction m with
  | nil => simp
  | cons pr m ih =>
    obtain ⟨b, p⟩ := pr
    by_cases hk : k = b
    · subst hk
      rw [lookup_cons_self] at h
      exact absurd h (by simp)
    · rw [lookup_cons_ne hk] at h
      simp only [List.map_cons, List.mem_cons]
      rintro (rfl | hm)
      · exact hk rfl
      · exact ih h hm

theorem buildMap_keys_nodup (es : List (Str × Str × Str)) :
    ((buildMap es).map (·.1)).Nodup := by
  induction es using List.reverseRecOn with
  | nil => simp [buildMap]
  | append_singleton es e ih =>
    rw [buildMap_append_one]
    cases he : List.lookup e.1 (buildMap es) with
    | some p0 => rw [keys_applyEntry_some _ _ _ he]; exact ih
    | none =>
      rw [keys_applyEntry_none _ _ he, ← List.concat_eq_append]
      exact ih.concat (lookup_none_not_mem_keys _ _ he)

theorem mem_lookup_of_nodup {m : PMap} (h : (m.map (·.1)).Nodup) {k : Str}
    {p : Partition} (hm : (k, p) ∈ m) : List.lookup k m = some p := by
  induction m with
  | nil => simp at hm
  | cons pr m ih =>
    obtain ⟨b, q⟩ := pr
    rw [List.map_cons, List.nodup_cons] at h
    rcases List.mem_cons.1 hm with heq | hm2
    · injection heq with h1 h2
      subst h1; subst h2
      exact lookup_cons_self
    · have hk : k ≠ b := by
        rintro rfl
        exact h.1 (List.mem_map.2 ⟨(k, p), hm2, rfl⟩)
      rw [lookup_cons_ne hk]
      exact ih h.2 hm2

theorem filter_key_singleton {m : PMap} (h : (m.map (·.1)).Nodup) {k : Str}
    {p : Partition} (hm : (k, p) ∈ m) :
    m.filter (fun q => q.1 = k) = [(k, p)] := by
  induction m with
  | nil => simp at hm
  | cons pr m ih =>
    obtain ⟨b, q⟩ := pr
    rw [List.map_cons, List.nodup_cons] at h
    rcases List.mem_cons.1 hm with heq | hm2
    · injection heq with h1 h2
      subst h1; subst h2
      rw [List.filter_cons_of_pos (by simp)]
      have hnil : m.filter (fun q => q.1 = k) = [] := by
        rw [List.filter_eq_nil_iff]
        intro x hx
        simp only [decide_eq_true_eq]
        rintro rfl
        exact h.1 (List.mem_map.2 ⟨x, hx, rfl⟩)
      rw [hnil]
    · have hk : k ≠ b := by
        rintro rfl
        exact h.1 (List.mem_map.2 ⟨(k, p), hm2, rfl⟩)
      rw [List.filter_cons_of_neg (by simp [Ne.symm hk]), ih h.2 hm2]

theorem buildMap_lookup (es : List (Str × Str × Str)) (k : Str) :
    List.lookup k (buildMap es) =
      (match es.find? (fun e => e.1 = k) with
       | none => none
       | some e0 =>
         some ⟨k, e0.2.1,
           accMounts ((es.filter (fun e => e.1 = k)).map (fun e => e.2.2)),
           none, 0, none⟩) := by
  induction es using List.reverseRecOn with
  | nil => simp [buildMap]
  | append_singleton es e ih =>
    rw [buildMap_append_one, lookup_applyEntry]
    by_cases hk : k = e.1
    · subst hk
      rw [if_pos rfl, ih]
      have hfind2 : List.find? (fun e2 : Str × Str × Str => e2.1 = e.1) [e] = some e := by
        simp
      have hfilter2 : List.filter (fun e2 : Str × Str × Str => e2.1 = e.1) [e] = [e] := by
        simp
      cases hf : es.find? (fun e2 => e2.1 = e.1) with
      | none =>
        have hfilter : es.filter (fun e2 : Str × Str × Str => e2.1 = e.1) = [] := by
          rw [List.filter_eq_nil_iff]
          intro x hx
          exact List.find?_eq_none.1 hf x hx
        simp only [List.find?_append, hf, Option.none_or, hfind2,
          List.filter_append, hfilter, hfilter2]
        simp [accMounts_single]
      | some e0 =>
        simp only [List.find?_append, hf, Option.or, List.filter_append, hfilter2,
          List.map_append, List.map_cons, List.map_nil]
        rw [accMounts_appendOne]
        by_cases hmem :
            e.2.2 ∈ accMounts ((es.filter (fun e2 => e2.1 = e.1)).map (fun e2 => e2.2.2))
        · simp [Partition.add_mount_point, hmem]
        · simp [Partition.add_mount_point, hmem]
    · rw [if_neg hk, ih]
      have hfind1 : List.find? (fun e2 : Str × Str × Str => e2.1 = k) [e] = none := by
        simp
        exact fun h => hk h.symm
      have hfilter1 : List.filter (fun e2 : Str × Str × Str => e2.1 = k) [e] = [] := by
        simp
        exact fun h => hk h.symm
      rw [List.find?_append, List.filter_append, hfind1, hfilter1, Option.or_none,
        List.append_nil]

/-- Claim C7: whenever the parse loop succeeds, every partition record of
the resulting map is uniquely keyed by its canonical path, keeps its
filesystem type, size and label unset (`None` / `0` / `None`), and its
mount points are exactly the mount-point keys of the declarations that
resolved to that path, accumulated in order with duplicates removed. -/
theorem claim7_merge (env : FsEnv) (t : Str) (es : List (Str × Str × Str))
    (h : parseEntries env t = .ok es) :
    parse_nix_filesystems env t = .ok (buildMap es) ∧
      ∀ pr ∈ buildMap es,
        (buildMap es).filter (fun q => q.1 = pr.1) = [pr] ∧
        pr.2.path = pr.1 ∧ pr.2.fs_type = none ∧ pr.2.size = 0 ∧ pr.2.label = none ∧
        pr.2.mount_points =
          accMounts ((es.filter (fun e => e.1 = pr.1)).map (fun e => e.2.2)) ∧
        pr.2.mount_points.Nodup := by
  constructor
  · simp only [parse_nix_filesystems, h]
  · intro pr hpr
    obtain ⟨k, p⟩ := pr
    have hnd := buildMap_keys_nodup es
    have hl : List.lookup k (buildMap es) = some p := mem_lookup_of_nodup hnd hpr
    rw [buildMap_lookup] at hl
    refine ⟨filter_key_singleton hnd hpr, ?_⟩
    cases hf : es.find? (fun e => e.1 = k) with
    | none =>
      rw [hf] at hl
      exact absurd hl (by simp)
    | some e0 =>
      rw [hf] at hl
      injection hl with hl
      subst hl
      exact ⟨rfl, rfl, rfl, rfl, rfl, accMounts_nodup _⟩

/-- Witness for C7: two declarations with the same device reference merge
into one record with both mount points. -/
theorem claim7_witness :
    (parseEntries emptyFs
        "fileSystems.\"/a\" = \x7b device = \"u\"; \x7d; fileSystems.\"/b\" = \x7b device = \"u\"; \x7d;".data =
      .ok [("u".data, "u".data, "/a".data), ("u".data, "u".data, "/b".data)]) ∧
      (parse_nix_filesystems emptyFs
          "fileSystems.\"/a\" = \x7b device = \"u\"; \x7d; fileSystems.\"/b\" = \x7b device = \"u\"; \x7d;".data =
        .ok (buildMap [("u".data, "u".data, "/a".data), ("u".data, "u".data, "/b".data)]) ∧
        ∀ pr ∈ buildMap [("u".data, "u".data, "/a".data), ("u".data, "u".data, "/b".data)],
          (buildMap [("u".data, "u".data, "/a".data), ("u".data, "u".data, "/b".data)]).filter
              (fun q => q.1 = pr.1) = [pr] ∧
          pr.2.path = pr.1 ∧ pr.2.fs_type = none ∧ pr.2.size = 0 ∧ pr.2.label = none ∧
          pr.2.mount_points =
            accMounts (([("u".data, "u".data, "/a".data), ("u".data, "u".data, "/b".data)].filter
                (fun e => e.1 = pr.1)).map (fun e => e.2.2)) ∧
          pr.2.mount_points.Nodup) :=
  ⟨by decide,
    claim7_merge emptyFs
      "fileSystems.\"/a\" = \x7b device = \"u\"; \x7d; fileSystems.\"/b\" = \x7b device = \"u\"; \x7d;".data
      [("u".data, "u".data, "/a".data), ("u".data, "u".data, "/b".data)] (by decide)⟩

theorem markerMatch_after_length {s cap aft : Str} (h : markerMatch s = some (cap, aft)) :
    aft.length < s.length := by
  obtain ⟨hs, hne, -, -⟩ := markerMatch_eq h
  subst hs
  have : 0 < cap.length := List.length_pos.2 hne
  simp [List.length_append]
  omega

theorem parseEntriesF_fuel (env : FsEnv) : ∀ (n : Nat) (m : Nat) (s : Str),
    s.length ≤ n → s.length ≤ m → parseEntriesF env n s = parseEntriesF env m s := by
  intro n
  induction n with
  | zero =>
    intro m s hn _
    have : s = [] := List.length_eq_zero.1 (Nat.le_zero.1 hn)
    subst this
    cases m <;> rfl
  | succ n ih =>
    intro m s hn hm
    match s with
    | [] => cases m <;> rfl
    | c :: t =>
      match m, hm with
      | m + 1, hm =>
        have hn2 : t.length ≤ n := by simpa using hn
        have hm2 : t.length ≤ m := by simpa using hm
        cases hmm : markerMatch (c :: t) with
        | none =>
          simp only [parseEntriesF, hmm]
          exact ih m t hn2 hm2
        | some pr =>
          obtain ⟨cap, after⟩ := pr
          have hlen : after.length ≤ n := by
            have := markerMatch_after_length hmm
            simp at this
            omega
          have hlen2 : after.length ≤ m := by
            have := markerMatch_after_length hmm
            simp at this
            omega
          simp only [parseEntriesF, hmm]
          rw [ih m after hlen hlen2]

theorem parseEntries_cons_none (env : FsEnv) {c : Char} {s : Str}
    (h : markerMatch (c :: s) = none) :
    parseEntries env (c :: s) = parseEntries env s := by
  unfold parseEntries
  rw [show (c :: s).length = s.length + 1 from rfl]
  simp only [parseEntriesF, h]

theorem parseEntries_match (env : FsEnv) {s cap after g mount dev : Str}
    (h : markerMatch s = some (cap, after))
    (htb : takeThroughBrace s = some g)
    (hfc : firstCapture g = some mount)
    (hdc : deviceCapture g = some dev) :
    parseEntries env s =
      (match parseEntries env after with
       | .ok rest => .ok ((resolveDevice env dev, dev, mount) :: rest)
       | e => e) := by
  match s with
  | [] =>
    rw [show markerMatch ([] : Str) = none from rfl] at h
    exact absurd h (by simp)
  | c :: t =>
    unfold parseEntries
    rw [show (c :: t).length = t.length + 1 from rfl]
    simp only [parseEntriesF, h, htb, hfc, hdc]
    have hlen : after.length ≤ t.length := by
      have := markerMatch_after_length h
      simp at this
      omega
    rw [parseEntriesF_fuel env t.length after.length after hlen le_rfl]

theorem parseEntries_skip (env : FsEnv) (A B : Str)
    (h : ∀ i < A.length, markerMatch (A.drop i ++ B) = none) :
    parseEntries env (A ++ B) = parseEntries env B := by
  induction A with
  | nil => simp
  | cons c A ih =>
    have h0 := h 0 (by simp)
    rw [List.drop_zero] at h0
    rw [List.cons_append] at h0 ⊢
    rw [parseEntries_cons_none env h0]
    refine ih fun i hi => ?_
    have h2 := h (i + 1) (by simpa using Nat.succ_lt_succ hi)
    simpa using h2

theorem pref_getElemQ {p X : Str} (h : p <+: X) {j : Nat} (hj : j < p.length) :
    X[j]? = p[j]? := by
  obtain ⟨t, rfl⟩ := h
  rw [List.getElem?_append, if_pos hj]

theorem safeTwo_no_match {pat : Str} {p0 p1 : Char} {tl : Str}
    (hpat : pat = p0 :: p1 :: tl) :
    ∀ (A : Str), safeTwo p0 p1 A = true →
      ∀ (B : Str) (i : Nat), i < A.length → ¬ pat <+: (A.drop i ++ B) := by
  subst hpat
  intro A
  induction A with
  | nil => intro _ B i hi; simp at hi
  | cons c A ih =>
    intro hs B i hi hpre
    cases i with
    | zero =>
      rw [List.drop_zero, List.cons_append] at hpre
      obtain ⟨t, ht⟩ := hpre
      rw [List.cons_append, List.cons_append] at ht
      injection ht with h0 ht2
      cases A with
      | nil =>
        rw [show safeTwo p0 p1 [c] = (c != p0) from rfl] at hs
        rw [← h0] at hs
        simp at hs
      | cons c2 r =>
        rw [show safeTwo p0 p1 (c :: c2 :: r) =
            ((c != p0 || c2 != p1) && safeTwo p0 p1 (c2 :: r)) from rfl,
          Bool.and_eq_true, Bool.or_eq_true] at hs
        rw [List.cons_append] at ht2
        injection ht2 with h1 _
        rcases hs.1 with hx | hx
        · rw [← h0] at hx; simp at hx
        · rw [← h1] at hx; simp at hx
    | succ i =>
      cases A with
      | nil => simp at hi
      | cons c2 r =>
        rw [show safeTwo p0 p1 (c :: c2 :: r) =
            ((c != p0 || c2 != p1) && safeTwo p0 p1 (c2 :: r)) from rfl,
          Bool.and_eq_true] at hs
        refine ih hs.2 B i (by simpa using hi) ?_
        simpa using hpre

theorem markerMatch_none_of_safe (A : Str) (hA : safeTwo 'f' 'i' A = true)
    (B : Str) : ∀ i < A.length, markerMatch (A.drop i ++ B) = none := by
  intro i hi
  have hnp := safeTwo_no_match
    (rfl : markerStr = 'f' :: 'i' :: ("leSystems.\"".data)) A hA B i hi
  unfold markerMatch
  rw [if_neg (fun hb => hnp (isPrefixOfBool.1 hb))]

theorem dvMatch_none_of_safe (A : Str) (hA : safeTwo 'd' 'e' A = true)
    (B : Str) : ∀ i < A.length, dvMatch (A.drop i ++ B) = none := by
  intro i hi
  have hnp := safeTwo_no_match
    (rfl : devLit = 'd' :: 'e' :: ("vice = \"".data)) A hA B i hi
  unfold dvMatch
  rw [if_neg (fun hb => hnp (isPrefixOfBool.1 hb))]

theorem markerMatch_none_quoteSemi (u2 Z : Str) (hq : ∀ c ∈ u2, c ≠ '\"') :
    markerMatch (u2 ++ '\"' :: ';' :: '\n' :: Z) = none := by
  by_cases hp : markerStr.isPrefixOf (u2 ++ '\"' :: ';' :: '\n' :: Z)
  · have hpre := isPrefixOfBool.1 hp
    by_cases hlen : 13 ≤ u2.length
    · exfalso
      have htake : markerStr = u2.take 13 := by
        have h1 := List.prefix_iff_eq_take.1 hpre
        rw [markerStr_length] at h1
        rw [h1, List.take_append_of_le_length hlen]
      have hmem : '\"' ∈ u2 := by
        have hm : '\"' ∈ markerStr := by decide
        rw [htake] at hm
        exact List.mem_of_mem_take hm
      exact (hq _ hmem) rfl
    · push_neg at hlen
      have hju : markerStr[u2.length]? = some '\"' := by
        rw [← pref_getElemQ hpre (by rw [markerStr_length]; omega)]
        rw [List.getElem?_append, if_neg (by omega)]
        simp
      have h12 : u2.length = 12 := by
        have hall : ∀ j ∈ List.range 13, markerStr[j]? = some '\"' → j = 12 := by decide
        exact hall _ (List.mem_range.2 hlen) hju
      unfold markerMatch
      rw [if_pos hp]
      have hdrop : (u2 ++ '\"' :: ';' :: '\n' :: Z).drop 13 = ';' :: '\n' :: Z := by
        rw [show u2 ++ '\"' :: ';' :: '\n' :: Z = (u2 ++ ['\"']) ++ ';' :: '\n' :: Z by simp,
          show (13 : Nat) = (u2 ++ ['\"']).length by simp [h12]]
        exact List.drop_left _ _
      rw [hdrop]
      simp [findQuote, fqAfter]
  · unfold markerMatch
    rw [if_neg hp]

theorem devLit_length : devLit.length = 10 := rfl

theorem dvMatch_none_mpRegion (mp2 R : Str) (hq : ∀ c ∈ mp2, c ≠ '\"') :
    dvMatch (mp2 ++ '\"' :: ' ' :: '=' :: ' ' :: '\x7b' :: '\n' :: R) = none := by
  by_cases hp : devLit.isPrefixOf (mp2 ++ '\"' :: ' ' :: '=' :: ' ' :: '\x7b' :: '\n' :: R)
  · have hpre := isPrefixOfBool.1 hp
    by_cases hlen : 10 ≤ mp2.length
    · exfalso
      have htake : devLit = mp2.take 10 := by
        have h1 := List.prefix_iff_eq_take.1 hpre
        rw [devLit_length] at h1
        rw [h1, List.take_append_of_le_length hlen]
      have hmem : '\"' ∈ mp2 := by
        have hm : '\"' ∈ devLit := by decide
        rw [htake] at hm
        exact List.mem_of_mem_take hm
      exact (hq _ hmem) rfl
    · push_neg at hlen
      have hju : devLit[mp2.length]? = some '\"' := by
        rw [← pref_getElemQ hpre (by rw [devLit_length]; omega)]
        rw [List.getElem?_append, if_neg (by omega)]
        simp
      have h9 : mp2.length = 9 := by
        have hall : ∀ j ∈ List.range 10, devLit[j]? = some '\"' → j = 9 := by decide
        exact hall _ (List.mem_range.2 hlen) hju
      unfold dvMatch
      rw [if_pos hp]
      have hdrop : (mp2 ++ '\"' :: ' ' :: '=' :: ' ' :: '\x7b' :: '\n' :: R).drop 10 =
          ' ' :: '=' :: ' ' :: '\x7b' :: '\n' :: R := by
        rw [show mp2 ++ '\"' :: ' ' :: '=' :: ' ' :: '\x7b' :: '\n' :: R =
            (mp2 ++ ['\"']) ++ ' ' :: '=' :: ' ' :: '\x7b' :: '\n' :: R by simp,
          show (10 : Nat) = (mp2 ++ ['\"']).length by simp [h9]]
        exact List.drop_left _ _
      rw [hdrop]
      simp [dvAfter]
  · unfold dvMatch
    rw [if_neg hp]

theorem dvAfter_append (cap aft : Str) (h : ∀ c ∈ cap, c ≠ '\"' ∧ c ≠ '\n') :
    dvAfter (cap ++ '\"' :: ';' :: aft) = some (cap, aft) := by
  induction cap with
  | nil => simp [dvAfter]
  | cons c tlc ih =>
    have hc := h c (by simp)
    have ih2 := ih fun x hx => h x (by simp [hx])
    rw [List.cons_append,
      show dvAfter (c :: (tlc ++ '\"' :: ';' :: aft)) =
        (if c = '\"' ∧ (tlc ++ '\"' :: ';' :: aft).head? = some ';' then
          some ([], (tlc ++ '\"' :: ';' :: aft).tail)
        else if c = '\n' then none
        else (dvAfter (tlc ++ '\"' :: ';' :: aft)).map fun pr => (c :: pr.1, pr.2)) from rfl]
    rw [if_neg (fun hand => hc.1 hand.1), if_neg hc.2, ih2]
    rfl

theorem dvMatch_append (uuid S : Str) (h0 : uuid ≠ [])
    (h1 : ∀ c ∈ uuid, c ≠ '\"' ∧ c ≠ '\n') :
    dvMatch (devLit ++ uuid ++ '\"' :: ';' :: S) = some uuid := by
  have hp : devLit.isPrefixOf (devLit ++ uuid ++ '\"' :: ';' :: S) = true := by
    rw [isPrefixOfBool, List.append_assoc]
    exact List.prefix_append _ _
  unfold dvMatch
  rw [if_pos hp, List.append_assoc, ← devLit_length, List.drop_left]
  match uuid, h0 with
  | c0 :: tlu, _ =>
    have hc0 := h1 c0 (by simp)
    have hdv := dvAfter_append tlu S fun x hx => h1 x (by simp [hx])
    rw [List.cons_append]
    simp only [if_neg hc0.2, hdv]
    rfl

theorem deviceCapture_of_match {s cap : Str} (h : dvMatch s = some cap) :
    deviceCapture s = some cap := by
  match s with
  | [] =>
    rw [show dvMatch ([] : Str) = none from rfl] at h
    exact absurd h (by simp)
  | c :: t => simp only [deviceCapture, h]

theorem deviceCapture_cons_none {c : Char} {s : Str} (h : dvMatch (c :: s) = none) :
    deviceCapture (c :: s) = deviceCapture s := by
  simp only [deviceCapture, h]

theorem deviceCapture_skip (A B : Str)
    (h : ∀ i < A.length, dvMatch (A.drop i ++ B) = none) :
    deviceCapture (A ++ B) = deviceCapture B := by
  induction A with
  | nil => simp
  | cons c A ih =>
    have h0 := h 0 (by simp)
    rw [List.drop_zero] at h0
    rw [List.cons_append] at h0 ⊢
    rw [deviceCapture_cons_none h0]
    refine ih fun i hi => ?_
    have h2 := h (i + 1) (by simpa using Nat.succ_lt_succ hi)
    simpa using h2

theorem firstCapture_cons_none {c : Char} {s : Str} (h : markerMatch (c :: s) = none) :
    firstCapture (c :: s) = firstCapture s := by
  simp only [firstCapture, h]

theorem firstCapture_skip (A B : Str)
    (h : ∀ i < A.length, markerMatch (A.drop i ++ B) = none) :
    firstCapture (A ++ B) = firstCapture B := by
  induction A with
  | nil => simp
  | cons c A ih =>
    have h0 := h 0 (by simp)
    rw [List.drop_zero] at h0
    rw [List.cons_append] at h0 ⊢
    rw [firstCapture_cons_none h0]
    refine ih fun i hi => ?_
    have h2 := h (i + 1) (by simpa using Nat.succ_lt_succ hi)
    simpa using h2

theorem specOptions_mem (ft mp : Str) :
    specOptions ft mp ∈
      ([["defaults".data, "nofail".data, gvfsOpt, "compress=zstd".data],
        ["defaults".data, "nofail".data, "compress=zstd".data],
        ["defaults".data, "nofail".data, gvfsOpt,
         "uid=1000".data, "gid=100".data, "umask=022".data],
        ["defaults".data, "nofail".data,
         "uid=1000".data, "gid=100".data, "umask=022".data],
        ["defaults".data, "nofail".data, gvfsOpt],
        ["defaults".data, "nofail".data]] : List (List Str)) := by
  unfold specOptions specOptionTable
  by_cases h1 : ft = "btrfs".data
  · by_cases h3 : mp = "/".data ∨ mp = "/boot".data
    · rw [if_pos h3, if_pos h1]; decide
    · rw [if_neg h3, if_pos h1]; decide
  · by_cases h2 : ft = "ntfs".data ∨ ft = "ntfs3".data
    · by_cases h3 : mp = "/".data ∨ mp = "/boot".data
      · rw [if_pos h3, if_neg h1, if_pos h2]; decide
      · rw [if_neg h3, if_neg h1, if_pos h2]; decide
    · by_cases h3 : mp = "/".data ∨ mp = "/boot".data
      · rw [if_pos h3, if_neg h1, if_neg h2]; decide
      · rw [if_neg h3, if_neg h1, if_neg h2]; decide

theorem optsFacts (ft mp : Str) :
    '\x7d' ∉ get_filesystem_options ft mp ∧
      safeTwo 'f' 'i' (get_filesystem_options ft mp ++
        ';' :: '\n' :: ' ' :: ' ' :: '\x7d' :: ';' :: []) = true := by
  rw [show get_filesystem_options ft mp = fmtOptions (specOptions ft mp) from rfl]
  have hm := specOptions_mem ft mp
  simp only [List.mem_cons, List.mem_singleton, List.not_mem_nil, or_false] at hm
  rcases hm with h | h | h | h | h | h <;> rw [h] <;> exact ⟨by decide, by decide⟩

theorem parseEntries_genBlock (env : FsEnv) (uuid ft mp rest : Str)
    (hmp : goodComp mp) (huuid : goodComp uuid) (hft : goodComp ft) :
    parseEntries env (genBlock uuid ft mp ++ rest) =
      (match parseEntries env rest with
       | .ok r2 => .ok ((resolveDevice env uuid, uuid, mp) :: r2)
       | e => e) := by
  obtain ⟨hmpne, hmpc⟩ := hmp
  obtain ⟨huune, huuc⟩ := huuid
  obtain ⟨-, hftc⟩ := hft
  have hObrace : '\x7d' ∉ get_filesystem_options ft mp := (optsFacts ft mp).1
  have hOsafe := (optsFacts ft mp).2
  -- mount point / uuid character facts in the shapes the lemmas need
  have hmpNl : ∀ c ∈ mp, c ≠ '\n' := fun c hc => (hmpc c hc).2.1
  have hmpTq : ∀ c ∈ mp.tail, c ≠ '\"' := fun c hc => (hmpc c (List.mem_of_mem_tail hc)).1
  have huuNl : ∀ c ∈ uuid, c ≠ '\n' := fun c hc => (huuc c hc).2.1
  have huuQ : ∀ c ∈ uuid, c ≠ '\"' := fun c hc => (huuc c hc).1
  -- abbreviations for the suffix after the mount point's closing quote
  set O := get_filesystem_options ft mp with hO
  set AFT := segA ++ (uuid ++ (segB ++ (ft ++ (segC ++ (O ++ (segD ++ rest)))))) with hAFT
  set BFA := markerStr ++ mp ++ ['\"'] ++ segA ++ uuid ++ segB ++ ft ++ segC ++ O ++
    ([';', '\n', ' ', ' '] : Str) with hBFA
  -- step 1: expose the marker position
  have hstep1 : genBlock uuid ft mp ++ rest =
      (['\n', ' ', ' '] : Str) ++ (markerStr ++ mp ++ '\"' :: AFT) := by
    simp only [hAFT, genBlock, markerStr, devLit, segA, segB, segC, segD, hO,
      List.append_assoc, List.cons_append, List.nil_append]
  rw [hstep1, parseEntries_skip env (['\n', ' ', ' '] : Str) _
    (markerMatch_none_of_safe _ (by decide) _)]
  -- step 2: the anchored match
  have hmm : markerMatch (markerStr ++ mp ++ '\"' :: AFT) = some (mp, AFT) :=
    markerMatch_append mp AFT hmpne hmpNl hmpTq
  -- step 3: the group slice
  have hBF : '\x7d' ∉ BFA := by
    rw [hBFA]
    simp only [List.mem_append, List.mem_cons, List.not_mem_nil, or_false, not_or]
    refine ⟨⟨⟨⟨⟨⟨⟨⟨⟨by decide, ?_⟩, by decide⟩, by decide⟩, ?_⟩, by decide⟩, ?_⟩, by decide⟩,
      ?_⟩, by decide⟩
    · intro hmem; exact (hmpc _ hmem).2.2 rfl
    · intro hmem; exact (huuc _ hmem).2.2 rfl
    · intro hmem; exact (hftc _ hmem).2.2 rfl
    · exact hObrace
  have hsplit : markerStr ++ mp ++ '\"' :: AFT = BFA ++ '\x7d' :: (';' :: rest) := by
    simp only [hAFT, hBFA, hO, markerStr, devLit, segA, segB, segC, segD,
      List.append_assoc, List.cons_append, List.nil_append]
  have htb : takeThroughBrace (markerStr ++ mp ++ '\"' :: AFT) = some (BFA ++ ['\x7d']) := by
    rw [hsplit, takeThroughBrace_append _ hBF]
    rfl
  -- step 4: re-extraction of the mount point from the group
  have hgform : BFA ++ ['\x7d'] = markerStr ++ mp ++ '\"' ::
      (segA ++ (uuid ++ (segB ++ (ft ++ (segC ++ (O ++ ([';', '\n', ' ', ' ', '\x7d'] : Str))))))) := by
    simp only [hBFA, hO, markerStr, devLit, segA, segB, segC, segD,
      List.append_assoc, List.cons_append, List.nil_append]
  have hfc : firstCapture (BFA ++ ['\x7d']) = some mp := by
    rw [hgform]
    exact firstCapture_of_match (markerMatch_append mp _ hmpne hmpNl hmpTq)
  -- step 5: device extraction from the group
  have hdform : BFA ++ ['\x7d'] = markerStr ++ (mp ++
      ('\"' :: ' ' :: '=' :: ' ' :: '\x7b' :: '\n' ::
        (' ' :: ' ' :: ' ' :: ' ' :: (devLit ++ (uuid ++ ('\"' :: ';' ::
          ('\n' :: ([' ', ' ', ' ', ' ', 'f', 's', 'T', 'y', 'p', 'e', ' ', '=', ' ', '\"'] ++
            (ft ++ (segC ++ (O ++ ([';', '\n', ' ', ' ', '\x7d'] : Str)))))))))))) := by
    simp only [hBFA, hO, markerStr, devLit, segA, segB, segC, segD,
      List.append_assoc, List.cons_append, List.nil_append]
  have hdc : deviceCapture (BFA ++ ['\x7d']) = some uuid := by
    rw [hdform,
      deviceCapture_skip markerStr _ (dvMatch_none_of_safe markerStr (by decide) _),
      deviceCapture_skip mp _ (fun i hi =>
        dvMatch_none_mpRegion (mp.drop i) _
          (fun c hc => (hmpc c (List.mem_of_mem_drop hc)).1))]
    rw [show ('\"' :: ' ' :: '=' :: ' ' :: '\x7b' :: '\n' ::
        (' ' :: ' ' :: ' ' :: ' ' :: (devLit ++ (uuid ++ ('\"' :: ';' ::
          ('\n' :: ([' ', ' ', ' ', ' ', 'f', 's', 'T', 'y', 'p', 'e', ' ', '=', ' ', '\"'] ++
            (ft ++ (segC ++ (O ++ ([';', '\n', ' ', ' ', '\x7d'] : Str))))))))))) =
      (['\"', ' ', '=', ' ', '\x7b', '\n', ' ', ' ', ' ', ' '] : Str) ++
        (devLit ++ (uuid ++ ('\"' :: ';' ::
          ('\n' :: ([' ', ' ', ' ', ' ', 'f', 's', 'T', 'y', 'p', 'e', ' ', '=', ' ', '\"'] ++
            (ft ++ (segC ++ (O ++ ([';', '\n', ' ', ' ', '\x7d'] : Str))))))))) from rfl,
      deviceCapture_skip _ _ (dvMatch_none_of_safe _ (by decide) _)]
    rw [show devLit ++ (uuid ++ ('\"' :: ';' ::
        ('\n' :: ([' ', ' ', ' ', ' ', 'f', 's', 'T', 'y', 'p', 'e', ' ', '=', ' ', '\"'] ++
          (ft ++ (segC ++ (O ++ ([';', '\n', ' ', ' ', '\x7d'] : Str)))))))) =
      devLit ++ uuid ++ '\"' :: ';' ::
        ('\n' :: ([' ', ' ', ' ', ' ', 'f', 's', 'T', 'y', 'p', 'e', ' ', '=', ' ', '\"'] ++
          (ft ++ (segC ++ (O ++ ([';', '\n', ' ', ' ', '\x7d'] : Str)))))) from
        (List.append_assoc _ _ _).symm]
    exact deviceCapture_of_match
      (dvMatch_append uuid _ huune (fun c hc => ⟨huuQ c hc, huuNl c hc⟩))
  -- step 6: process the match, then cross the remainder of the block
  rw [parseEntries_match env hmm htb hfc hdc]
  have hcross : parseEntries env AFT = parseEntries env rest := by
    rw [hAFT, parseEntries_skip env segA _ (markerMatch_none_of_safe segA (by decide) _)]
    have hX2 : segB ++ (ft ++ (segC ++ (O ++ (segD ++ rest)))) =
        '\"' :: ';' :: '\n' :: ([' ', ' ', ' ', ' ', 'f', 's', 'T', 'y', 'p', 'e', ' ', '=', ' ', '\"'] ++
          (ft ++ (segC ++ (O ++ (segD ++ rest))))) := by
      simp only [segB, List.append_assoc, List.cons_append, List.nil_append]
    rw [parseEntries_skip env uuid _ (fun i hi => by
      rw [hX2]
      exact markerMatch_none_quoteSemi (uuid.drop i) _
        (fun c hc => huuQ c (List.mem_of_mem_drop hc)))]
    rw [hX2]
    rw [show '\"' :: ';' :: '\n' :: ([' ', ' ', ' ', ' ', 'f', 's', 'T', 'y', 'p', 'e', ' ', '=', ' ', '\"'] ++
        (ft ++ (segC ++ (O ++ (segD ++ rest))))) =
      (['\"', ';', '\n', ' ', ' ', ' ', ' ', 'f', 's', 'T', 'y', 'p', 'e', ' ', '=', ' ', '\"'] : Str) ++
        (ft ++ (segC ++ (O ++ (segD ++ rest)))) from rfl]
    rw [parseEntries_skip env _ _ (markerMatch_none_of_safe _ (by decide) _)]
    have hX4 : segC ++ (O ++ (segD ++ rest)) =
        '\"' :: ';' :: '\n' :: ([' ', ' ', ' ', ' ', 'o', 'p', 't', 'i', 'o', 'n', 's', ' ', '=', ' '] ++
          (O ++ (segD ++ rest))) := by
      simp only [segC, List.append_assoc, List.cons_append, List.nil_append]
    rw [parseEntries_skip env ft _ (fun i hi => by
      rw [hX4]
      exact markerMatch_none_quoteSemi (ft.drop i) _
        (fun c hc => (hftc c (List.mem_of_mem_drop hc)).1))]
    rw [hX4]
    rw [show '\"' :: ';' :: '\n' :: ([' ', ' ', ' ', ' ', 'o', 'p', 't', 'i', 'o', 'n', 's', ' ', '=', ' '] ++
        (O ++ (segD ++ rest))) =
      (['\"', ';', '\n', ' ', ' ', ' ', ' ', 'o', 'p', 't', 'i', 'o', 'n', 's', ' ', '=', ' '] : Str) ++
        (O ++ (segD ++ rest)) from rfl]
    rw [parseEntries_skip env _ _ (markerMatch_none_of_safe _ (by decide) _)]
    rw [show O ++ (segD ++ rest) = (O ++ ([';', '\n', ' ', ' ', '\x7d', ';'] : Str)) ++ rest from by
      simp only [segD, List.append_assoc, List.cons_append, List.nil_append]]
    rw [parseEntries_skip env _ rest (markerMatch_none_of_safe _ hOsafe rest)]
  rw [hcross]

theorem findSub_none_iff (pat : Str) (hp : pat ≠ []) (s : Str) :
    findSub pat s = none ↔ ∀ i, ¬ pat <+: s.drop i := by
  induction s with
  | nil =>
    simp only [findSub, List.drop_nil]
    rw [if_neg (by simpa [List.isEmpty_iff] using hp)]
    simp [List.prefix_nil, hp]
  | cons c s ih =>
    simp only [findSub]
    by_cases hpre : pat.isPrefixOf (c :: s) = true
    · rw [if_pos hpre]
      constructor
      · intro h; cases h
      · intro h
        exact absurd (isPrefixOfBool.1 hpre) (by simpa using h 0)
    · rw [if_neg hpre, Option.map_eq_none', ih]
      constructor
      · intro h i
        cases i with
        | zero =>
          simp only [List.drop_zero]
          exact fun hc => hpre (isPrefixOfBool.2 hc)
        | succ j => simpa using h j
      · intro h j
        simpa using h (j + 1)

theorem drop_pre_mono {P T : Str} (h : P <+: T) (i : Nat) :
    P.drop i <+: T.drop i := by
  obtain ⟨t, rfl⟩ := h
  by_cases hi : i ≤ P.length
  · rw [List.drop_append_of_le_length hi]
    exact ⟨t, rfl⟩
  · rw [List.drop_eq_nil_of_le (by omega)]
    exact List.nil_prefix

theorem noMarker_of_pre {P T : Str} (hpre : P <+: T)
    (hT : findSub markerStr T = none) : ∀ i, ¬ markerStr <+: P.drop i :=
  fun i hc =>
    (findSub_none_iff markerStr (by decide) T).1 hT i (hc.trans (drop_pre_mono hpre i))

theorem markerMatch_none_seam (P B : Str) (hB : B.head? = some '\n')
    (hP : ∀ i, ¬ markerStr <+: P.drop i) :
    ∀ i < P.length, markerMatch (P.drop i ++ B) = none := by
  intro i hi
  have hnot : ¬ (markerStr.isPrefixOf (P.drop i ++ B) = true) := by
    intro hc
    have hpre : markerStr <+: P.drop i ++ B := isPrefixOfBool.1 hc
    by_cases hk : 13 ≤ (P.drop i).length
    · have htk : markerStr = (P.drop i ++ B).take 13 := by
        have := List.prefix_iff_eq_take.1 hpre
        rwa [markerStr_length] at this
      rw [List.take_append_eq_append_take,
        show 13 - (P.drop i).length = 0 from by omega,
        List.take_zero, List.append_nil] at htk
      exact hP i (htk ▸ List.take_prefix 13 (P.drop i))
    · have hlen : (P.drop i).length = P.length - i := List.length_drop i P
      have h13 : (P.drop i).length < markerStr.length := by
        rw [markerStr_length]; omega
      have h1 : markerStr[(P.drop i).length]? = (P.drop i ++ B)[(P.drop i).length]? := by
        rw [List.prefix_iff_eq_take.1 hpre, List.getElem?_take, if_pos h13]
      have h2 : (P.drop i ++ B)[(P.drop i).length]? = some '\n' := by
        rw [List.getElem?_append_right (le_refl _), Nat.sub_self,
          ← List.head?_eq_getElem?]
        exact hB
      have h3 : '\n' ∈ markerStr := List.mem_iff_getElem?.2 ⟨_, h1.trans h2⟩
      revert h3
      decide
  rw [markerMatch, if_neg hnot]

theorem rustTrimEnd_pre (s : Str) : rustTrimEnd s <+: s := by
  rw [rustTrimEnd]
  have h : s.reverse.dropWhile rustIsWhitespace <:+ s.reverse :=
    List.dropWhile_suffix rustIsWhitespace
  have h2 := List.reverse_prefix.2 h
  rwa [List.reverse_reverse] at h2

theorem popBrace_pre (s : Str) : popBrace s <+: s := by
  rw [popBrace]
  by_cases h : s.getLast? = some '\x7d'
  · rw [if_pos h]; exact List.dropLast_prefix s
  · rw [if_neg h]

theorem scanBlocks_nil (s : Str) (h : findSub markerStr s = none) :
    scanBlocks s = [] := by
  rw [scanBlocks]
  cases hl : s.length with
  | zero => rfl
  | succ n => simp [scanBlocksF, h]

theorem removeBlocks_id (s : Str) (h : findSub markerStr s = none) :
    removeBlocks s = s := by
  rw [removeBlocks]
  cases hl : s.length with
  | zero => rfl
  | succ n => simp [removeBlocksF, h]

theorem regen_markerFree (T : Str) (D : List Disk) (h : findSub markerStr T = none) :
    get_nix_disks_config T D =
      popBrace (rustTrimEnd T) ++
        (((mountEntries D).flatMap fun e => genBlock e.1 e.2.1 e.2.2) ++
          ('\n' :: '\n' :: '\x7d' :: [])) := by
  simp only [get_nix_disks_config, scanBlocks_nil T h, removeBlocks_id T h,
    List.filter_nil, List.flatMap_nil, List.append_nil, List.append_assoc]

theorem blocksTail_head (es : List (Str × Str × Str)) :
    ((es.flatMap fun e => genBlock e.1 e.2.1 e.2.2) ++
      ('\n' :: '\n' :: '\x7d' :: [])).head? = some '\n' := by
  cases es with
  | nil => rfl
  | cons e es => rfl

theorem parseEntries_tail (env : FsEnv) :
    parseEntries env ('\n' :: '\n' :: '\x7d' :: []) = .ok [] := rfl

theorem resolveDevice_empty (p : Str) : resolveDevice emptyFs p = p := rfl

theorem parseEntries_blocks (env : FsEnv) (es : List (Str × Str × Str))
    (h : ∀ e ∈ es, goodComp e.1 ∧ goodComp e.2.1 ∧ goodComp e.2.2) :
    parseEntries env ((es.flatMap fun e => genBlock e.1 e.2.1 e.2.2) ++
        ('\n' :: '\n' :: '\x7d' :: [])) =
      .ok (es.map fun e => (resolveDevice env e.1, e.1, e.2.2)) := by
  induction es with
  | nil =>
    simp only [List.flatMap_nil, List.nil_append, List.map_nil]
    exact parseEntries_tail env
  | cons e es ih =>
    obtain ⟨h1, h2, h3⟩ := h e (List.mem_cons_self e es)
    rw [List.flatMap_cons, List.append_assoc,
      parseEntries_genBlock env e.1 e.2.1 e.2.2 _ h3 h1 h2,
      ih (fun x hx => h x (List.mem_cons_of_mem e hx))]
    rfl

theorem accAux_mem (l acc : List Str) (x : Str) :
    x ∈ l.foldl (fun acc mp => if mp ∈ acc then acc else acc ++ [mp]) acc ↔
      x ∈ acc ∨ x ∈ l := by
  induction l generalizing acc with
  | nil => simp
  | cons y l ih =>
    simp only [List.foldl_cons]
    rw [ih]
    by_cases hy : y ∈ acc
    · rw [if_pos hy]
      simp only [List.mem_cons]
      constructor
      · rintro (h | h)
        exacts [Or.inl h, Or.inr (Or.inr h)]
      · rintro (h | rfl | h)
        exacts [Or.inl h, Or.inl hy, Or.inr h]
    · rw [if_neg hy]
      simp only [List.mem_append, List.mem_singleton, List.mem_cons]
      tauto

theorem mem_accMounts {l : List Str} {x : Str} : x ∈ accMounts l ↔ x ∈ l := by
  rw [accMounts, accAux_mem]
  simp

theorem buildMap_mounts (es : List (Str × Str × Str)) (u : Str) (p : Partition)
    (h : List.lookup u (buildMap es) = some p) (mp : Str) :
    mp ∈ p.mount_points ↔ ∃ e ∈ es, e.1 = u ∧ e.2.2 = mp := by
  rw [buildMap_lookup] at h
  cases hf : es.find? (fun e => e.1 = u) with
  | none =>
    rw [hf] at h
    cases h
  | some e0 =>
    rw [hf] at h
    injection h with h
    rw [← h]
    simp only [mem_accMounts, List.mem_map, List.mem_filter, decide_eq_true_eq]
    constructor
    · rintro ⟨e, ⟨he, hu⟩, hm⟩
      exact ⟨e, he, hu, hm⟩
    · rintro ⟨e, he, hu, hm⟩
      exact ⟨e, ⟨he, hu⟩, hm⟩

theorem mem_mountEntries {D : List Disk} {e : Str × Str × Str} :
    e ∈ mountEntries D ↔ ∃ d ∈ D, ∃ q ∈ d.partitions,
      ∃ mp ∈ q.mount_points, is_critical_mount_point mp = false ∧
        e = (q.uuid_path, q.fs_type.getD "auto".data, mp) := by
  simp only [mountEntries, List.mem_flatMap]
  refine exists_congr fun d => and_congr_right fun _ => exists_congr fun q =>
    and_congr_right fun _ => ?_
  by_cases hq : q.mount_points.isEmpty
  · rw [if_pos hq]
    simp only [List.not_mem_nil, false_iff, not_exists]
    rintro mp ⟨hm, -⟩
    rw [List.isEmpty_iff] at hq
    rw [hq] at hm
    cases hm
  · rw [if_neg hq]
    simp only [List.mem_map, List.mem_filter, Bool.not_eq_true']
    constructor
    · rintro ⟨mp, ⟨hm, hc⟩, rfl⟩
      exact ⟨mp, hm, hc, rfl⟩
    · rintro ⟨mp, hm, hc, rfl⟩
      exact ⟨mp, ⟨hm, hc⟩, rfl⟩

/-- C2 (amended): round-trip on marker-free configuration texts.  For a
configuration text `T` with no `fileSystems."` marker and a disk tree `D`
whose emitted components (uuid path, filesystem type, mount point) are
nonempty and free of quote, newline and closing-brace characters, parsing
the regenerated text succeeds and returns exactly the partition map built
from `D`'s non-critical mount entries keyed by uuid path; in that map a
mount point belongs to the record at key `u` iff it is a non-critical
mount point of some partition of `D` with uuid path `u`. -/
theorem claim2_roundtrip (T : Str) (D : List Disk)
    (hT : findSub markerStr T = none)
    (hD : ∀ e ∈ mountEntries D, goodComp e.1 ∧ goodComp e.2.1 ∧ goodComp e.2.2) :
    parse_nix_filesystems emptyFs (get_nix_disks_config T D) =
      .ok (buildMap ((mountEntries D).map fun e => (e.1, e.1, e.2.2))) ∧
    ∀ u p,
      List.lookup u (buildMap ((mountEntries D).map fun e => (e.1, e.1, e.2.2))) = some p →
      ∀ mp, mp ∈ p.mount_points ↔
        ∃ d ∈ D, ∃ q ∈ d.partitions, q.uuid_path = u ∧ mp ∈ q.mount_points ∧
          is_critical_mount_point mp = false := by
  constructor
  · have hP : popBrace (rustTrimEnd T) <+: T :=
      (popBrace_pre (rustTrimEnd T)).trans (rustTrimEnd_pre T)
    have hskip := parseEntries_skip emptyFs (popBrace (rustTrimEnd T))
      (((mountEntries D).flatMap fun e => genBlock e.1 e.2.1 e.2.2) ++
        ('\n' :: '\n' :: '\x7d' :: []))
      (markerMatch_none_seam _ _ (blocksTail_head (mountEntries D))
        (noMarker_of_pre hP hT))
    rw [regen_markerFree T D hT]
    simp only [parse_nix_filesystems]
    rw [hskip, parseEntries_blocks emptyFs (mountEntries D) hD]
    have hmap : (mountEntries D).map (fun e => (resolveDevice emptyFs e.1, e.1, e.2.2)) =
        (mountEntries D).map (fun e => (e.1, e.1, e.2.2)) :=
      List.map_congr_left fun e _ => by rw [resolveDevice_empty]
    rw [hmap]
  · intro u p hp mp
    rw [buildMap_mounts _ u p hp mp]
    constructor
    · rintro ⟨e', he', hu, hm⟩
      rw [List.mem_map] at he'
      obtain ⟨e, he, rfl⟩ := he'
      rw [mem_mountEntries] at he
      obtain ⟨d, hd, q, hq, mp0, hmp0, hcrit, rfl⟩ := he
      exact ⟨d, hd, q, hq, hu, hm ▸ hmp0, hm ▸ hcrit⟩
    · rintro ⟨d, hd, q, hq, hu, hm, hcrit⟩
      refine ⟨(q.uuid_path, q.uuid_path, mp), List.mem_map.2
        ⟨(q.uuid_path, q.fs_type.getD "auto".data, mp), mem_mountEntries.2
          ⟨d, hd, q, hq, mp, hm, hcrit, rfl⟩, rfl⟩, hu, rfl⟩

/-- C2 counterexample to the unrestricted claim: a configuration text
containing a declaration marker with no closing delimiter survives the
removal pass, so extraction of the regenerated text fails with the
missing-device error instead of reporting the disk tree's (empty here)
mount points. -/
theorem claim2_cex :
    parse_nix_filesystems emptyFs (get_nix_disks_config ("fileSystems.\"/a\"".data) []) =
      POut.err PErr.devicePath := by decide

/-- Witness for C2 at the concrete text `c2T` and disk list `[c2Disk]`. -/
theorem claim2_witness :
    parse_nix_filesystems emptyFs (get_nix_disks_config c2T [c2Disk]) =
      POut.ok (buildMap ((mountEntries [c2Disk]).map fun e => (e.1, e.1, e.2.2))) ∧
    ∀ u p,
      List.lookup u (buildMap ((mountEntries [c2Disk]).map fun e => (e.1, e.1, e.2.2))) =
        some p →
      ∀ mp, mp ∈ p.mount_points ↔
        ∃ d ∈ [c2Disk], ∃ q ∈ d.partitions, q.uuid_path = u ∧ mp ∈ q.mount_points ∧
          is_critical_mount_point mp = false :=
  claim2_roundtrip c2T [c2Disk] (by decide) (by unfold goodComp; decide)
